import Mathlib

/-!
Verification of the undrdg AEDAT decoders, tree orchestrator and content
store, shallowly embedded from the Python sources (src/undrdg/parsers.py,
src/undrdg/tree.py, src/undrdg/path.py).  Byte buffers are modelled as
lists of natural numbers, numpy structured arrays as lists of Lean
structures, and the fallible decoders return Except values.
-/

deriving instance DecidableEq for Except

namespace Undrdg

/-! ## Header parsing (read_aerdat_header, parsers.py lines 14-28)

The Python loop keeps an index into the byte buffer; we keep the consumed
bytes in an accumulator and recurse on the remaining bytes.  A byte is 35
for the character # and 10 for a newline; bytes.isascii() means every byte
is below 128.  Raising IncompleteHeader is modelled as Except.error. -/

def readAerdatHeaderGo (acc rest : List Nat) :
    Except Unit (List Nat × List Nat) :=
  match rest with
  | [] => Except.error ()
  | b :: tail =>
    if b = 35 then
      match tail.findIdx? (fun c => c = 10) with
      | none => Except.ok (acc, b :: tail)
      | some j =>
        if (tail.take j).all (fun c => c < 128) then
          readAerdatHeaderGo (acc ++ (b :: tail.take (j + 1))) (tail.drop (j + 1))
        else
          Except.ok (acc, b :: tail)
    else
      Except.ok (acc, b :: tail)
termination_by rest.length
decreasing_by
  simp only [List.length_cons, List.length_drop]
  omega

def readAerdatHeader (data : List Nat) : Except Unit (List Nat × List Nat) :=
  readAerdatHeaderGo [] data

/-! ## First-generation decoder (read_aerdat1, parsers.py lines 37-60) -/

/-- Big-endian 32-bit timestamp assembled from four bytes. -/
def beU32 (t0 t1 t2 t3 : Nat) : Nat :=
  ((t0 * 256 + t1) * 256 + t2) * 256 + t3

/-- One 6-byte gen-1 record: two data bytes and a big-endian timestamp,
as produced by numpy.frombuffer with dtype [(d0, u1), (d1, u1), (t, >u4)]. -/
structure Rec1 where
  d0 : Nat
  d1 : Nat
  t : Nat
  deriving Repr, DecidableEq

/-- Reinterpret the bytes as 6-byte records; trailing bytes that do not
fill a record are dropped (data[: (len(data) // 6) * 6]). -/
def parseRecords6 : List Nat → List Rec1
  | d0 :: d1 :: t0 :: t1 :: t2 :: t3 :: rest =>
    { d0 := d0, d1 := d1, t := beU32 t0 t1 t2 t3 } :: parseRecords6 rest
  | _ => []

/-- A decoded DVS event (undr.raw.DVS_DTYPE holds t, x, y, p as unsigned
integers wide enough for every value produced here). -/
structure DvsEvent where
  t : Nat
  x : Nat
  y : Nat
  p : Nat
  deriving Repr, DecidableEq

structure Aerdat1 where
  header : Option (List Nat)
  dvs : Option (List DvsEvent)
  deriving Repr, DecidableEq

def rec1ToEvent (r : Rec1) : DvsEvent :=
  { t := r.t
    x := 127 - (r.d1 >>> 1)
    y := r.d0 &&& 0x7F
    p := ((r.d0 &&& 0b10000000) >>> 6) ||| (r.d1 &&& 0b1) }

def readAerdat1 (data : List Nat) : Except Unit Aerdat1 :=
  match readAerdatHeader data with
  | Except.error e => Except.error e
  | Except.ok (header, rest) =>
    let recs := parseRecords6 rest
    Except.ok
      { header := if 0 < header.length then some header else none
        dvs := if 0 < recs.length then some (recs.map rec1ToEvent) else none }

/-! ## Second-generation decoder (read_aerdat2, parsers.py lines 63-251) -/

/-- One 8-byte gen-2 record: four data bytes and a big-endian timestamp,
dtype [(d0, u1), (d1, u1), (d2, u1), (d3, u1), (t, >u4)]. -/
structure Rec2 where
  d0 : Nat
  d1 : Nat
  d2 : Nat
  d3 : Nat
  t : Nat
  deriving Repr, DecidableEq

/-- Reinterpret the bytes as 8-byte records, dropping a trailing partial
record (data[: (len(data) // 8) * 8]). -/
def parseRecords8 : List Nat → List Rec2
  | d0 :: d1 :: d2 :: d3 :: t0 :: t1 :: t2 :: t3 :: rest =>
    { d0 := d0, d1 := d1, d2 := d2, d3 := d3, t := beU32 t0 t1 t2 t3 }
      :: parseRecords8 rest
  | _ => []

/-- Loop condition of numpy.count_nonzero(numpy.diff(t) < 0) > 0: some
adjacent timestamp pair is strictly decreasing. -/
def needsSort : List Rec2 → Bool
  | a :: b :: rest => decide (b.t < a.t) || needsSort (b :: rest)
  | _ => false

/-- The comparison used by numpy.sort(parsed_data, order=["t"]): the field
t is compared first, and the remaining fields break ties in dtype order
(d0, d1, d2, d3), as documented for sorting structured arrays. -/
def recLe (a b : Rec2) : Bool :=
  decide (a.t < b.t) ||
    (a.t == b.t && (decide (a.d0 < b.d0) ||
      (a.d0 == b.d0 && (decide (a.d1 < b.d1) ||
        (a.d1 == b.d1 && (decide (a.d2 < b.d2) ||
          (a.d2 == b.d2 && decide (a.d3 ≤ b.d3))))))))

/-- parsers.py lines 110-111: sort the records only when some adjacent
timestamp pair decreases. -/
def sortRecords (rs : List Rec2) : List Rec2 :=
  if needsSort rs then rs.mergeSort recLe else rs

/-- DVS tag: the top bit of byte 0 is clear (parsers.py line 112). -/
def dvsMask (r : Rec2) : Bool := r.d0 >>> 7 == 0

/-- APS tag: not DVS, and the 2-bit sub-tag of byte 2 is not 0b11
(parsers.py lines 113-116). -/
def apsMask (r : Rec2) : Bool := !(dvsMask r) && (r.d2 &&& 0b1100 != 0b1100)

/-- IMU tag: neither DVS nor APS (parsers.py lines 117-119). -/
def imuMask (r : Rec2) : Bool := !(dvsMask r) && !(apsMask r)

/-- Aerdat2.extract_x (parsers.py lines 72-79). -/
def extractX (r : Rec2) : Nat :=
  ((r.d1 &&& 0b111111) <<< 4) ||| (r.d2 >>> 4)

/-- Aerdat2.extract_y (parsers.py lines 81-88). -/
def extractY (r : Rec2) : Nat :=
  ((r.d0 &&& 0b1111111) <<< 2) ||| (r.d1 >>> 6)

/-- DVS polarity bits of byte 2 (parsers.py lines 126-133). -/
def dvsPolarity (r : Rec2) : Nat :=
  ((r.d2 &&& 0b1000) >>> 3) ||| ((r.d2 &&& 0b100) >>> 1)

/-- parsers.py lines 120-134: the DVS array, present only when at least
one record carries the DVS tag. -/
def dvsStage (rs : List Rec2) : Option (List DvsEvent) :=
  let dvs_data := rs.filter dvsMask
  if 0 < dvs_data.length then
    some (dvs_data.map fun r =>
      { t := r.t, x := extractX r, y := extractY r, p := dvsPolarity r })
  else none

/-! APS frame reconstruction (parsers.py lines 135-214).  The 240x180
pixel grid is modelled as a function, point updates as function
updates, and the -1 timestamp sentinels as Option Nat (timestamps are
unsigned, so -1 never collides with a real value). -/

def apsIsReset (r : Rec2) : Bool := r.d2 &&& 0b1100 == 0b0000

def apsIsSignal (r : Rec2) : Bool := r.d2 &&& 0b1100 == 0b0100

/-- 10-bit APS sample from byte 2's low bits and byte 3 (lines 141-144). -/
def apsSample (r : Rec2) : Nat := ((r.d2 &&& 0b11) <<< 8) ||| r.d3

def frameWrite (f : Nat → Nat → Nat) (x y v : Nat) : Nat → Nat → Nat :=
  fun a b => if a = x ∧ b = y then v else f a b

structure ApsState where
  frame : Nat → Nat → Nat
  first_reset : Option Nat
  last_reset : Option Nat
  first_signal : Option Nat
  last_signal : Option Nat

def apsInit : ApsState :=
  { frame := fun _ _ => 0
    first_reset := none
    last_reset := none
    first_signal := none
    last_signal := none }

def apsAllSet (st : ApsState) : Bool :=
  st.first_reset.isSome && st.last_reset.isSome &&
    st.first_signal.isSome && st.last_signal.isSome

/-- A frame as appended to t_frames: pixel grid plus the four
timestamps. -/
structure ApsFrameT where
  pixels : Nat → Nat → Nat
  first_reset : Nat
  last_reset : Nat
  first_signal : Nat
  last_signal : Nat

def stateFrame (st : ApsState) : ApsFrameT :=
  { pixels := st.frame
    first_reset := st.first_reset.getD 0
    last_reset := st.last_reset.getD 0
    first_signal := st.first_signal.getD 0
    last_signal := st.last_signal.getD 0 }

/-- Body of the loop at parsers.py lines 151-192, run on one APS
record. -/
def apsStep (acc : ApsState × List ApsFrameT) (r : Rec2) :
    ApsState × List ApsFrameT :=
  let st := acc.1
  let frames := acc.2
  let x := extractX r
  let y := extractY r
  if x < 240 ∧ y < 180 then
    if apsIsReset r then
      let st1 := if st.first_reset = none then { st with first_reset := some r.t } else st
      if x = 0 ∧ y = 0 then
        let frames1 := if apsAllSet st1 then frames ++ [stateFrame st1] else frames
        let st2 : ApsState :=
          { frame := frameWrite (fun _ _ => 0) x y (apsSample r)
            first_reset := some r.t
            last_reset := none
            first_signal := none
            last_signal := none }
        (st2, frames1)
      else
        let st2 :=
          { st1 with
            last_reset := some r.t
            frame := frameWrite st1.frame x y (apsSample r) }
        (st2, frames)
    else if apsIsSignal r then
      let st1 := if st.first_signal = none then { st with first_signal := some r.t } else st
      let luma := st1.frame x y
      let sample := apsSample r
      let luma1 := if sample > luma then 0 else luma - sample
      let st2 :=
        { st1 with
          last_signal := some r.t
          frame := frameWrite st1.frame x y luma1 }
      (st2, frames)
    else
      (st, frames)
  else
    (st, frames)

/-- The full reconstruction loop over the APS-classified records. -/
def apsLoop (aps_data : List Rec2) : ApsState × List ApsFrameT :=
  aps_data.foldl apsStep (apsInit, [])

/-- Frames emitted by the loop plus the final emission at end of stream
(parsers.py lines 193-201). -/
def apsFramesAll (aps_data : List Rec2) : List ApsFrameT :=
  let res := apsLoop aps_data
  res.2 ++ (if apsAllSet res.1 then [stateFrame res.1] else [])

/-- One entry of the APS output array (parsers.py lines 205-214). -/
structure ApsOut where
  t : Nat
  begin_t : Nat
  end_t : Nat
  exposure_begin_t : Nat
  exposure_end_t : Nat
  width : Nat
  height : Nat
  pixels : Nat → Nat → Nat

def frameToOut (f : ApsFrameT) : ApsOut :=
  { t := f.first_signal
    begin_t := f.first_reset
    end_t := f.first_signal
    exposure_begin_t := f.last_reset
    exposure_end_t := f.last_signal
    width := 240
    height := 180
    pixels := f.pixels }

/-- parsers.py lines 135-214: returns the optional APS array and the
aps_corrupted flag. -/
def apsStage (rs : List Rec2) : Option (List ApsOut) × Bool :=
  let aps_data := rs.filter apsMask
  if 0 < aps_data.length then
    let t_frames := apsFramesAll aps_data
    if t_frames.length = 0 then (none, true)
    else (some (t_frames.map frameToOut), false)
  else (none, false)

/-! IMU reconstruction (parsers.py lines 215-250). -/

/-- 16-bit IMU sample value (parsers.py lines 222-230). -/
def imuSampleVal (r : Rec2) : Nat :=
  ((r.d0 &&& 0b1111) <<< 12) ||| ((r.d1 <<< 4) ||| (r.d2 >>> 4))

/-- 3-bit IMU type tag (parsers.py line 231). -/
def imuTypeTag (r : Rec2) : Nat := (r.d0 &&& 0b1110000) >>> 4

/-- The sorted distinct values of numpy.unique (ascending; the values
are distinct, so any correct sort produces the numpy result). -/
def uniqueVals (ts : List Nat) : List Nat :=
  ts.dedup.insertionSort (· ≤ ·)

structure ImuSample where
  t : Nat
  accelerometer_x : Nat
  accelerometer_y : Nat
  accelerometer_z : Nat
  temperature : Nat
  gyroscope_x : Nat
  gyroscope_y : Nat
  gyroscope_z : Nat
  deriving Repr, DecidableEq

/-- parsers.py lines 215-250: returns the optional IMU array and the
imu_corrupted flag.  numpy.unique(ts, return_index=True,
return_counts=True) yields the sorted distinct timestamps with the index
of their first occurrence and their multiplicity; unique_mask selects
those with multiplicity exactly 7. -/
def imuStage (rs : List Rec2) : Option (List ImuSample) × Bool :=
  let imu_data := rs.filter imuMask
  if 0 < imu_data.length then
    let ts := imu_data.map Rec2.t
    let sevenTs := (uniqueVals ts).filter (fun v => ts.count v == 7)
    if 0 < sevenTs.length then
      let samples := imu_data.map imuSampleVal
      let types := imu_data.map imuTypeTag
      let boundary_indices := sevenTs.map (fun v => ts.findIdx (fun x => x == v))
      let valid := (List.range 7).all (fun offset =>
        boundary_indices.all (fun b => types.getD (b + offset) 8 == offset))
      if valid then
        (some ((sevenTs.zip boundary_indices).map (fun q =>
          { t := q.1
            accelerometer_x := samples.getD q.2 0
            accelerometer_y := samples.getD (q.2 + 1) 0
            accelerometer_z := samples.getD (q.2 + 2) 0
            temperature := samples.getD (q.2 + 3) 0
            gyroscope_x := samples.getD (q.2 + 4) 0
            gyroscope_y := samples.getD (q.2 + 5) 0
            gyroscope_z := samples.getD (q.2 + 6) 0 })), false)
      else (none, true)
    else (none, false)
  else (none, false)

structure Aerdat2 where
  header : Option (List Nat)
  dvs : Option (List DvsEvent)
  aps : Option (List ApsOut)
  imu : Option (List ImuSample)
  aps_corrupted : Bool
  imu_corrupted : Bool

def readAerdat2 (data : List Nat) : Except Unit Aerdat2 :=
  match readAerdatHeader data with
  | Except.error e => Except.error e
  | Except.ok (header, rest) =>
    let parsed_data := sortRecords (parseRecords8 rest)
    Except.ok
      { header := if 0 < header.length then some header else none
        dvs := dvsStage parsed_data
        aps := (apsStage parsed_data).1
        imu := (imuStage parsed_data).1
        aps_corrupted := (apsStage parsed_data).2
        imu_corrupted := (imuStage parsed_data).2 }

/-! Projections used to state concrete facts about decodes without
comparing pixel grids (which are functions). -/

def records2 (data : List Nat) : List Rec2 :=
  match readAerdatHeader data with
  | Except.error _ => []
  | Except.ok (_, rest) => sortRecords (parseRecords8 rest)

def decode2IsOk (data : List Nat) : Bool := (readAerdat2 data).isOk

def decode2Header (data : List Nat) : Option (Option (List Nat)) :=
  match readAerdat2 data with
  | Except.error _ => none
  | Except.ok r => some r.header

def decode2Dvs (data : List Nat) : Option (Option (List DvsEvent)) :=
  match readAerdat2 data with
  | Except.error _ => none
  | Except.ok r => some r.dvs

def decode2ApsLen (data : List Nat) : Option (Option Nat) :=
  match readAerdat2 data with
  | Except.error _ => none
  | Except.ok r => some (r.aps.map List.length)

def decode2Imu (data : List Nat) : Option (Option (List ImuSample)) :=
  match readAerdat2 data with
  | Except.error _ => none
  | Except.ok r => some r.imu

def decode2ApsCorrupted (data : List Nat) : Option Bool :=
  match readAerdat2 data with
  | Except.error _ => none
  | Except.ok r => some r.aps_corrupted

def decode2ImuCorrupted (data : List Nat) : Option Bool :=
  match readAerdat2 data with
  | Except.error _ => none
  | Except.ok r => some r.imu_corrupted

/-! ## Tree orchestrator (tree.py)

A source-relative path is its list of components; an entry's name is the
last component.  Rule objects (tree.py lines 14-74) expose match / skip /
rename; match is a predicate on the relative path, skip a constant per
rule class, rename a string function. -/

structure RelPath where
  components : List String
  deriving DecidableEq, Repr

def RelPath.name (p : RelPath) : String := (p.components.getLast?).getD ""

/-- Index of the last dot of a file name, as pathlib's name.rfind. -/
def lastDotIdx (cs : List Char) : Option Nat :=
  ((cs.enum.filter (fun q => q.2 = ('.' : Char))).getLast?).map Prod.fst

/-- pathlib.PurePath.suffix restricted to a bare file name: the part from
the last dot, unless that dot is the first or last character. -/
def pySuffix (name : String) : String :=
  let cs := name.toList
  match lastDotIdx cs with
  | some i => if 0 < i ∧ i + 1 < cs.length then String.mk (cs.drop i) else ""
  | none => ""

/-- pathlib.PurePath.stem restricted to a bare file name. -/
def pyStem (name : String) : String :=
  let cs := name.toList
  match lastDotIdx cs with
  | some i => if 0 < i ∧ i + 1 < cs.length then String.mk (cs.take i) else name
  | none => name

/-- The Rule protocol: matchPath, skipFlag and renameFn model the match,
skip and rename methods (match and skip are reserved words in Lean). -/
structure Rule where
  matchPath : RelPath → Bool
  skipFlag : Bool
  renameFn : String → String

/-- tree.py lines 25-41 (class Rename). -/
def RenameRule (match_relative_path : RelPath) (new_name : String) : Rule :=
  { matchPath := fun p => p == match_relative_path
    skipFlag := false
    renameFn := fun _ => new_name }

/-- tree.py lines 44-57 (class RenameExtension). -/
def RenameExtensionRule (match_extension new_extension : String) : Rule :=
  { matchPath := fun p => pySuffix p.name == match_extension
    skipFlag := false
    renameFn := fun name => pyStem name ++ new_extension }

/-- tree.py lines 60-74 (class SkipName). -/
def SkipNameRule (match_name : String) : Rule :=
  { matchPath := fun p => p.name == match_name
    skipFlag := true
    renameFn := fun name => name }

/-- The rule loop of tasks (tree.py lines 103-110): target_name starts as
the source name; every rule is matched against the original relative
path; a matching skip rule excludes the entry (none); a matching rename
rule updates the running target_name. -/
def evalRules (rules : List Rule) (source_relative_path : RelPath)
    (name : String) : Option String :=
  match rules with
  | [] => some name
  | r :: rest =>
    if r.matchPath source_relative_path then
      if r.skipFlag then none
      else evalRules rest source_relative_path (r.renameFn name)
    else evalRules rest source_relative_path name

/-- Modelled from the spec: evaluation applies only the rename of the
first matching rule, so rules are independent and never chained.  Used to
compare the spec's reading of the rule loop with the source's. -/
def evalRulesFirstMatch (rules : List Rule) (source_relative_path : RelPath)
    (name : String) : Option String :=
  match rules.find? (fun r => r.matchPath source_relative_path) with
  | none => some name
  | some r => if r.skipFlag then none else some (r.renameFn name)

/-- A node of the source file tree walked by tasks. -/
inductive FsNode where
  | file (name : String)
  | dir (name : String) (children : List FsNode)
  deriving Repr

def FsNode.name : FsNode → String
  | .file n => n
  | .dir n _ => n

def FsNode.isDir : FsNode → Bool
  | .file _ => false
  | .dir _ _ => true

def FsNode.children : FsNode → List FsNode
  | .file _ => []
  | .dir _ cs => cs

theorem sizeOf_string_pos (s : String) : 0 < sizeOf s := by
  cases s with
  | mk d => simp [String.mk.sizeOf_spec]

theorem FsNode.sizeOf_children_lt (n : FsNode) : sizeOf n.children < sizeOf n := by
  cases n with
  | file nm => have := sizeOf_string_pos nm; simp [FsNode.children]; omega
  | dir nm cs => have := sizeOf_string_pos nm; simp [FsNode.children]

/-- Sort key of tree.py lines 95-99: directories first (key prefixed by
the digit 1), then files (digit 2), each group by name. -/
def nodeKey (n : FsNode) : String := (if n.isDir then "1" else "2") ++ n.name

def nodeLe (a b : FsNode) : Bool := decide (nodeKey a ≤ nodeKey b)

/-- A stable sort by nodeKey, as list.sort(key=...) in tree.py. -/
def sortNodes (children : List FsNode) : List FsNode := children.mergeSort nodeLe

/-- tasks (tree.py lines 86-131) restricted to what the generated tasks
record: each yielded task's source-relative path and target name.  Files
of one directory are yielded in sorted order before the sorted
subdirectories are recursed into; an entry matched by a skip rule is
dropped together with its whole subtree. -/
def dirTasks (rules : List Rule) (rel : List String) (children : List FsNode) :
    List (List String × String) :=
  let kept := (sortNodes children).filterMap (fun n =>
    (evalRules rules ⟨rel ++ [n.name]⟩ n.name).map (fun tn => (n, tn)))
  ((kept.filter (fun q => !q.1.isDir)).map (fun q => (rel ++ [q.1.name], q.2))) ++
    (kept.filter (fun q => q.1.isDir)).attach.flatMap
      (fun q => dirTasks rules (rel ++ [q.1.1.name]) q.1.1.children)
termination_by sizeOf children
decreasing_by
  obtain ⟨n, hn, hmap⟩ := List.mem_filterMap.mp (List.mem_of_mem_filter q.2)
  obtain ⟨tn, _htn, hpair⟩ := Option.map_eq_some'.mp hmap
  have hn2 : n ∈ children := by
    simp only [sortNodes] at hn
    exact List.mem_mergeSort.mp hn
  have h2 : sizeOf n.children < sizeOf children :=
    Nat.lt_trans (FsNode.sizeOf_children_lt n) (List.sizeOf_lt_of_mem hn2)
  have h3 : q.1.1 = n := by rw [← hpair]
  rw [h3]
  exact h2

/-! ## Content store index (path.py, class Directory)

The index is modelled by the three name lists and the set of names added
during this process's lifetime (added_names); index entries are
represented by their name, the only part the ordering and uniqueness
invariants depend on (update_index replaces the stored entry of an equal
name, leaving the name lists unchanged). -/

structure IndexState where
  directories : List String
  files : List String
  other_files : List String
  added_names : List String
  deriving DecidableEq, Repr

/-- bisect.bisect_left on a sorted list: the number of elements smaller
than x. -/
def insortPoint (l : List String) (x : String) : Nat :=
  (l.takeWhile (fun y => decide (y < x))).length

/-- Directory name insertion of create_subdirectory (path.py lines
154-158): append at the end, do nothing when the name is already present,
insert otherwise. -/
def bisectInsortDir (l : List String) (x : String) : List String :=
  let i := insortPoint l x
  if i = l.length then l ++ [x]
  else if l.getD i "" ≠ x then l.take i ++ x :: l.drop i
  else l

/-- Entry insertion of update_index (path.py lines 229-242): append at
the end, replace an entry of equal name, insert otherwise.  On name
lists a replacement is List.set with the same name. -/
def bisectInsortFile (l : List String) (x : String) : List String :=
  let i := insortPoint l x
  if i = l.length then l ++ [x]
  else if l.getD i "" = x then l.set i x
  else l.take i ++ x :: l.drop i

/-- create_subdirectory (path.py lines 145-163): fails when the name was
already added in this process's lifetime, otherwise records it and
inserts it into the sorted directory list. -/
def createSubdirectory (s : IndexState) (name : String) :
    Except String IndexState :=
  if name ∈ s.added_names then Except.error name
  else
    Except.ok
      { s with
        directories := bisectInsortDir s.directories name
        added_names := s.added_names ++ [name] }

inductive FileKind where
  | file
  | otherFile
  deriving DecidableEq, Repr

/-- update_index (path.py lines 207-246) as called by BaseFile.close:
fails when the name was already added in this process's lifetime,
otherwise records it and inserts or replaces the entry in the sorted
list selected by the file's class. -/
def updateIndex (s : IndexState) (kind : FileKind) (name : String) :
    Except String IndexState :=
  if name ∈ s.added_names then Except.error name
  else
    Except.ok (match kind with
      | FileKind.file =>
        { s with
          files := bisectInsortFile s.files name
          added_names := s.added_names ++ [name] }
      | FileKind.otherFile =>
        { s with
          other_files := bisectInsortFile s.other_files name
          added_names := s.added_names ++ [name] })

/-- A call that mutates the index: create_subdirectory, or create_file /
create_other_file whose handle is then closed (which calls
update_index). -/
inductive DirOp where
  | subdir (name : String)
  | closeFileOp (kind : FileKind) (name : String)
  deriving DecidableEq, Repr

def DirOp.name : DirOp → String
  | .subdir n => n
  | .closeFileOp _ n => n

def applyOp (s : IndexState) : DirOp → Except String IndexState
  | DirOp.subdir n => createSubdirectory s n
  | DirOp.closeFileOp k n => updateIndex s k n

def runOps (s : IndexState) : List DirOp → Except String IndexState
  | [] => Except.ok s
  | op :: ops =>
    match applyOp s op with
    | Except.error e => Except.error e
    | Except.ok s1 => runOps s1 ops

def allNames (s : IndexState) : List String :=
  s.directories ++ s.files ++ s.other_files

/-- The three lists are each sorted by name. -/
def sortedState (s : IndexState) : Prop :=
  s.directories.Sorted (· ≤ ·) ∧ s.files.Sorted (· ≤ ·) ∧
    s.other_files.Sorted (· ≤ ·)

/-- No name is repeated across (or within) the three lists. -/
def noDupNames (s : IndexState) : Prop := (allNames s).Nodup

def indexInv (s : IndexState) : Prop := sortedState s ∧ noDupNames s

/-- The state of a Directory right after __init__ on the default empty
index (path.py lines 20-25 and 100-143). -/
def emptyIndexState : IndexState :=
  { directories := [], files := [], other_files := [], added_names := [] }

/-! ## Content files (path.py, class BaseFile)

The model is parameterized by the brotli compressor (an opaque state
type with process and finish) and by the incremental hash
(undr.utilities.new_hash), modelled by the list of bytes fed so far and
an abstract digest function applied at hexdigest time. -/

structure Compressor (σ : Type) where
  process : σ → List Nat → List Nat × σ
  finish : σ → List Nat

/-- The open-file state: compressor state, bytes written to the handle
on disk, bytes fed to each incremental hash, and the two running sizes
of the index entry. -/
structure OpenFile (σ : Type) where
  comp : σ
  disk : List Nat
  uncompressedFed : List Nat
  compressedFed : List Nat
  size : Nat
  compressionSize : Nat

def newOpenFile {σ : Type} (c0 : σ) : OpenFile σ :=
  { comp := c0, disk := [], uncompressedFed := [], compressedFed := []
    size := 0, compressionSize := 0 }

/-- BaseFile.write_raw (path.py lines 403-418): compress, write the
compressed bytes, add both lengths to the sizes, feed both hashes. -/
def writeRaw {σ : Type} (C : Compressor σ) (st : OpenFile σ)
    (data : List Nat) : OpenFile σ :=
  let res := C.process st.comp data
  { comp := res.2
    disk := st.disk ++ res.1
    uncompressedFed := st.uncompressedFed ++ data
    compressedFed := st.compressedFed ++ res.1
    size := st.size + data.length
    compressionSize := st.compressionSize + res.1.length }

/-- The parts of the registered index entry that C6 is about, together
with the final contents of the file on disk. -/
structure ClosedFile (α : Type) where
  disk : List Nat
  entryHash : α
  entrySize : Nat
  compressionHash : α
  compressionSize : Nat

/-- BaseFile.close (path.py lines 382-401): flush the compressor
trailer to the handle, account its length, feed the compressed hash,
then finalize both digests into the index entry. -/
def closeFile {σ α : Type} (C : Compressor σ) (H : List Nat → α)
    (st : OpenFile σ) : ClosedFile α :=
  let cd := C.finish st.comp
  { disk := st.disk ++ cd
    entryHash := H st.uncompressedFed
    entrySize := st.size
    compressionHash := H (st.compressedFed ++ cd)
    compressionSize := st.compressionSize + cd.length }

/-! ## Spec-side models and derived views used in the statements -/

/-- A complete comment line body: starts with the byte 35 (the character
#), is all ASCII and contains no newline. -/
def hashLine (l : List Nat) : Prop :=
  ∃ t, l = 35 :: t ∧ (∀ b ∈ t, b < 128) ∧ 10 ∉ t

/-- The whole buffer is a concatenation of newline-terminated complete
ASCII comment lines (possibly zero of them). -/
def fullHeaderData (data : List Nat) : Prop :=
  ∃ lines : List (List Nat), (∀ l ∈ lines, hashLine l) ∧
    data = (lines.map (fun l => l ++ [10])).flatten

/-- Modelled from the spec: the whole record array is stably re-sorted
by timestamp alone, ties keeping their arrival order. -/
def stableSortByT (rs : List Rec2) : List Rec2 :=
  rs.mergeSort (fun a b => decide (a.t ≤ b.t))

/-- The timestamps that numpy.unique reports with multiplicity exactly 7
among the IMU-classified records (the timestamps selected by
unique_mask). -/
def sevenGroupTs (irecs : List Rec2) : List Nat :=
  (uniqueVals (irecs.map Rec2.t)).filter (fun v => (irecs.map Rec2.t).count v == 7)

/-- The index of the first record carrying a given timestamp (the entry
of numpy.unique's return_index for that timestamp). -/
def groupStart (irecs : List Rec2) (v : Nat) : Nat :=
  (irecs.map Rec2.t).findIdx (fun x => x == v)

/-! ## Concrete input streams used by counterexamples and witnesses -/

/-- Seven gen-2 IMU records sharing timestamp 1 whose type tags are the
permutation 1,0,2,3,4,5,6 of 0..6 (each record is
d0 = 0x80 + 16 * tag, d1 = 0, d2 = 0b1100, d3 = 0, t = 1). -/
def c1data : List Nat :=
  [144, 0, 12, 0, 0, 0, 0, 1,
   128, 0, 12, 0, 0, 0, 0, 1,
   160, 0, 12, 0, 0, 0, 0, 1,
   176, 0, 12, 0, 0, 0, 0, 1,
   192, 0, 12, 0, 0, 0, 0, 1,
   208, 0, 12, 0, 0, 0, 0, 1,
   224, 0, 12, 0, 0, 0, 0, 1]

/-- The same seven IMU records with the type tags in slot order 0..6. -/
def c1ok : List Nat :=
  [128, 0, 12, 0, 0, 0, 0, 1,
   144, 0, 12, 0, 0, 0, 0, 1,
   160, 0, 12, 0, 0, 0, 0, 1,
   176, 0, 12, 0, 0, 0, 0, 1,
   192, 0, 12, 0, 0, 0, 0, 1,
   208, 0, 12, 0, 0, 0, 0, 1,
   224, 0, 12, 0, 0, 0, 0, 1]

/-- Three gen-2 DVS records: (x=2, t=10) then (x=1, t=3) then (x=0,
t=3); the timestamp disorder triggers the sort, and the two t=3 records
disagree between arrival order and data-byte order. -/
def c8data : List Nat :=
  [0, 0, 32, 0, 0, 0, 0, 10,
   0, 0, 16, 0, 0, 0, 0, 3,
   0, 0, 0, 0, 0, 0, 0, 3]

/-- One gen-2 APS reset record at pixel (0, 5): reconstruction runs but
never emits a frame. -/
def c4bad : List Nat := [129, 64, 0, 0, 0, 0, 0, 1]

/-- A full gen-2 APS cycle: reset at (0,0), reset at (1,0), signal at
(1,0); at end of stream all four timestamps are set. -/
def c4good : List Nat :=
  [128, 0, 0, 0, 0, 0, 0, 1,
   128, 0, 16, 0, 0, 0, 0, 2,
   128, 0, 20, 0, 0, 0, 0, 3]

/-- Two rename rules matching the same path a.dat. -/
def c2rules : List Rule :=
  [RenameRule ⟨["a.dat"]⟩ "first.out", RenameRule ⟨["a.dat"]⟩ "second.out"]

/-- A directory state as loaded by __init__ from a manifest that already
lists a file named a: sorted, and no name repeated. -/
def c5loaded : IndexState :=
  { directories := [], files := ["a"], other_files := [], added_names := [] }

/-! ## Helper lemmas -/

theorem parseRecords6_length (l : List Nat) :
    (parseRecords6 l).length = l.length / 6 := by
  induction l using parseRecords6.induct with
  | case1 d0 d1 t0 t1 t2 t3 rest ih =>
    simp only [parseRecords6, List.length_cons, ih]
    omega
  | case2 l h =>
    match l, h with
    | [], _ => simp [parseRecords6]
    | [a], _ => simp [parseRecords6]
    | [a, b], _ => simp [parseRecords6]
    | [a, b, c], _ => simp [parseRecords6]
    | [a, b, c, d], _ => simp [parseRecords6]
    | [a, b, c, d, e], _ => simp [parseRecords6]
    | a :: b :: c :: d :: e :: f :: rest, h => exact absurd rfl (h a b c d e f rest)

theorem parseRecords6_get? (l : List Nat) (i : Nat) :
    (parseRecords6 l).get? i =
      if 6 * i + 5 < l.length then
        some { d0 := l.getD (6 * i) 0
               d1 := l.getD (6 * i + 1) 0
               t := beU32 (l.getD (6 * i + 2) 0) (l.getD (6 * i + 3) 0)
                 (l.getD (6 * i + 4) 0) (l.getD (6 * i + 5) 0) }
      else none := by
  induction l using parseRecords6.induct generalizing i with
  | case1 d0 d1 t0 t1 t2 t3 rest ih =>
    cases i with
    | zero => simp [parseRecords6, List.getD]
    | succ n =>
      have step : (parseRecords6 (d0 :: d1 :: t0 :: t1 :: t2 :: t3 :: rest)).get? (n + 1)
          = (parseRecords6 rest).get? n := by
        simp [parseRecords6]
      rw [step, ih]
      by_cases hlt : 6 * n + 5 < rest.length
      · rw [if_pos hlt, if_pos (by simp; omega)]
        have g : ∀ (m : Nat),
            (d0 :: d1 :: t0 :: t1 :: t2 :: t3 :: rest).getD (6 * n + m + 6) 0
              = rest.getD (6 * n + m) 0 := fun m => rfl
        have ha : 6 * (n + 1) = 6 * n + 0 + 6 := by ring
        rw [ha]
        have hb : 6 * n + 0 + 6 + 1 = 6 * n + 1 + 6 := by ring
        have hc : 6 * n + 0 + 6 + 2 = 6 * n + 2 + 6 := by ring
        have hd : 6 * n + 0 + 6 + 3 = 6 * n + 3 + 6 := by ring
        have he : 6 * n + 0 + 6 + 4 = 6 * n + 4 + 6 := by ring
        have hf : 6 * n + 0 + 6 + 5 = 6 * n + 5 + 6 := by ring
        rw [hb, hc, hd, he, hf, g 0, g 1, g 2, g 3, g 4, g 5]
        norm_num
      · rw [if_neg hlt, if_neg (by simp; omega)]
  | case2 l h =>
    match l, h with
    | [], _ => simp [parseRecords6]
    | [a], _ => simp [parseRecords6]
    | [a, b], _ => simp [parseRecords6]; rw [if_neg (by omega)]
    | [a, b, c], _ => simp [parseRecords6]; rw [if_neg (by omega)]
    | [a, b, c, d], _ => simp [parseRecords6]; rw [if_neg (by omega)]
    | [a, b, c, d, e], _ => simp [parseRecords6]
    | a :: b :: c :: d :: e :: f :: rest, h => exact absurd rfl (h a b c d e f rest)

/-- Evaluation helper: a buffer whose first byte is not the character #
has an empty header. -/
theorem readAerdatHeader_cons_ne (b : Nat) (rest : List Nat) (hb : ¬ b = 35) :
    readAerdatHeader (b :: rest) = Except.ok ([], b :: rest) := by
  rw [readAerdatHeader, readAerdatHeaderGo, if_neg hb]

/-! ## Claim C7: gen-1 field extraction -/

/-- C7: every 6-byte gen-1 record with bytes (byte0, byte1) followed by
a 4-byte big-endian timestamp decodes to x = 127 - (byte1 >> 1),
y = byte0 & 0x7F and p = ((byte0 & 0x80) >> 6) | (byte1 & 1); the pair
(0, 0) therefore decodes to x = 127, y = 0, p = 0. -/
theorem claim_C7 (data h rest : List Nat) (a : Aerdat1)
    (hhdr : readAerdatHeader data = Except.ok (h, rest))
    (hdec : readAerdat1 data = Except.ok a)
    (i : Nat) (hi : 6 * i + 5 < rest.length) :
    ∃ evs, a.dvs = some evs ∧
      evs.get? i = some
        { t := beU32 (rest.getD (6 * i + 2) 0) (rest.getD (6 * i + 3) 0)
            (rest.getD (6 * i + 4) 0) (rest.getD (6 * i + 5) 0)
          x := 127 - (rest.getD (6 * i + 1) 0 >>> 1)
          y := rest.getD (6 * i) 0 &&& 0x7F
          p := ((rest.getD (6 * i) 0 &&& 0b10000000) >>> 6) |||
            (rest.getD (6 * i + 1) 0 &&& 0b1) } := by
  rw [readAerdat1, hhdr] at hdec
  have hlen : 0 < (parseRecords6 rest).length := by
    rw [parseRecords6_length]
    omega
  obtain rfl : _ = a := Except.ok.inj hdec
  refine ⟨(parseRecords6 rest).map rec1ToEvent, ?_, ?_⟩
  · simp only [if_pos hlen]
  · rw [List.get?_map, parseRecords6_get?, if_pos hi]
    rfl

/-- Witness for C7 at the concrete record 00 00 00 00 00 2A. -/
theorem claim_C7_witness :
    readAerdatHeader [0, 0, 0, 0, 0, 42] = Except.ok ([], [0, 0, 0, 0, 0, 42]) ∧
    readAerdat1 [0, 0, 0, 0, 0, 42] =
      Except.ok { header := none, dvs := some [{ t := 42, x := 127, y := 0, p := 0 }] } ∧
    (∃ evs,
      ({ header := none,
         dvs := some [{ t := 42, x := 127, y := 0, p := 0 }] } : Aerdat1).dvs = some evs ∧
      evs.get? 0 = some { t := 42, x := 127, y := 0, p := 0 }) := by
  have hh := readAerdatHeader_cons_ne 0 [0, 0, 0, 0, 42] (by decide)
  have hd : readAerdat1 [0, 0, 0, 0, 0, 42] =
      Except.ok { header := none, dvs := some [{ t := 42, x := 127, y := 0, p := 0 }] } := by
    simp only [readAerdat1, hh]
    decide
  refine ⟨hh, hd, ?_⟩
  have := claim_C7 [0, 0, 0, 0, 0, 42] [] [0, 0, 0, 0, 0, 42]
    { header := none, dvs := some [{ t := 42, x := 127, y := 0, p := 0 }] }
    hh hd 0 (by decide)
  simpa using this

/-! ## Claim C9: record classification partition -/

/-- C9: each gen-2 record is classified into exactly one of DVS, APS and
IMU by the three masks; and the gen-1 decoder routes every record into
the DVS array (its result has no other array, so it never produces APS
or IMU data). -/
theorem claim_C9 :
    (∀ r : Rec2, (dvsMask r).toNat + (apsMask r).toNat + (imuMask r).toNat = 1) ∧
    (∀ data h rest a, readAerdatHeader data = Except.ok (h, rest) →
      readAerdat1 data = Except.ok a → (a.dvs.getD []).length = rest.length / 6) := by
  constructor
  · intro r
    simp only [imuMask, apsMask, dvsMask]
    cases h1 : (r.d0 >>> 7 == 0) <;> cases h2 : (r.d2 &&& 0b1100 != 0b1100) <;>
      simp [h1, h2]
  · intro data h rest a hhdr hdec
    rw [readAerdat1, hhdr] at hdec
    obtain rfl : _ = a := Except.ok.inj hdec
    by_cases hlen : 0 < (parseRecords6 rest).length
    · simp only [if_pos hlen, Option.getD_some, List.length_map]
      exact parseRecords6_length rest
    · simp only [if_neg hlen, Option.getD_none, List.length_nil]
      rw [← parseRecords6_length rest]
      omega

/-- Witness for C9 at a concrete gen-2 record and a concrete gen-1
stream of two records. -/
theorem claim_C9_witness :
    ((dvsMask { d0 := 128, d1 := 0, d2 := 12, d3 := 0, t := 0 }).toNat +
      (apsMask { d0 := 128, d1 := 0, d2 := 12, d3 := 0, t := 0 }).toNat +
      (imuMask { d0 := 128, d1 := 0, d2 := 12, d3 := 0, t := 0 }).toNat = 1) ∧
    readAerdatHeader (List.replicate 12 0) = Except.ok ([], List.replicate 12 0) ∧
    readAerdat1 (List.replicate 12 0) =
      Except.ok { header := none,
                  dvs := some [{ t := 0, x := 127, y := 0, p := 0 },
                               { t := 0, x := 127, y := 0, p := 0 }] } ∧
    ((some [({ t := 0, x := 127, y := 0, p := 0 } : DvsEvent),
            { t := 0, x := 127, y := 0, p := 0 }]).getD []).length
      = (List.replicate 12 (0 : Nat)).length / 6 := by
  have hh : readAerdatHeader (List.replicate 12 0) =
      Except.ok ([], List.replicate 12 0) := by
    have := readAerdatHeader_cons_ne 0 (List.replicate 11 0) (by decide)
    simpa using this
  have hd : readAerdat1 (List.replicate 12 0) =
      Except.ok { header := none,
                  dvs := some [{ t := 0, x := 127, y := 0, p := 0 },
                               { t := 0, x := 127, y := 0, p := 0 }] } := by
    simp only [readAerdat1, hh]
    decide
  exact ⟨claim_C9.1 _, hh, hd,
    claim_C9.2 (List.replicate 12 0) [] (List.replicate 12 0) _ hh hd⟩

/-! ## Claim C10: absence is None, never an empty array -/

theorem parseRecords8_length (l : List Nat) :
    (parseRecords8 l).length = l.length / 8 := by
  induction l using parseRecords8.induct with
  | case1 d0 d1 d2 d3 t0 t1 t2 t3 rest ih =>
    simp only [parseRecords8, List.length_cons, ih]
    omega
  | case2 l h =>
    match l, h with
    | [], _ => simp [parseRecords8]
    | [a], _ => simp [parseRecords8]
    | [a, b], _ => simp [parseRecords8]
    | [a, b, c], _ => simp [parseRecords8]
    | [a, b, c, d], _ => simp [parseRecords8]
    | [a, b, c, d, e], _ => simp [parseRecords8]
    | [a, b, c, d, e, f], _ => simp [parseRecords8]
    | [a, b, c, d, e, f, g], _ => simp [parseRecords8]
    | a :: b :: c :: d :: e :: f :: g :: h2 :: rest, h =>
      exact absurd rfl (h a b c d e f g h2 rest)

theorem dvsStage_none_iff (rs : List Rec2) :
    dvsStage rs = none ↔ rs.filter dvsMask = [] := by
  simp only [dvsStage]
  by_cases h : 0 < (rs.filter dvsMask).length
  · rw [if_pos h]
    simp only [reduceCtorEq, false_iff]
    intro hnil
    rw [hnil] at h
    simp at h
  · rw [if_neg h]
    simp only [true_iff]
    have : (rs.filter dvsMask).length = 0 := by omega
    exact List.length_eq_zero.mp this

theorem dvsStage_some_ne_nil (rs : List Rec2) (l : List DvsEvent)
    (h : dvsStage rs = some l) : l ≠ [] := by
  simp only [dvsStage] at h
  split at h
  case isTrue hp =>
    obtain rfl : _ = l := Option.some.inj h
    intro hnil
    have hlen := congrArg List.length hnil
    rw [List.length_map] at hlen
    simp only [List.length_nil] at hlen
    omega
  case isFalse hp => cases h

theorem apsStage_some_ne_nil (rs : List Rec2) (l : List ApsOut)
    (h : (apsStage rs).1 = some l) : l ≠ [] := by
  simp only [apsStage] at h
  split at h
  case isTrue hp =>
    split at h
    case isTrue hf => simp at h
    case isFalse hf =>
      have : some ((apsFramesAll (rs.filter apsMask)).map frameToOut) = some l := h
      obtain rfl : _ = l := Option.some.inj this
      intro hnil
      have hlen := congrArg List.length hnil
      rw [List.length_map] at hlen
      simp only [List.length_nil] at hlen
      exact hf hlen
  case isFalse hp => simp at h

theorem imuStage_some_ne_nil (rs : List Rec2) (l : List ImuSample)
    (h : (imuStage rs).1 = some l) : l ≠ [] := by
  simp only [imuStage] at h
  split at h
  case isTrue hp =>
    split at h
    case isTrue hs =>
      split at h
      case isTrue hv =>
        have h2 := h
        obtain rfl : _ = l := Option.some.inj h2
        intro hnil
        have hlen := congrArg List.length hnil
        rw [List.length_map, List.length_zip, List.length_map] at hlen
        simp only [List.length_nil, Nat.min_self] at hlen
        omega
      case isFalse hv => simp at h
    case isFalse hs => simp at h
  case isFalse hp => simp at h

theorem apsStage_none_of_nil (rs : List Rec2)
    (h : rs.filter apsMask = []) : (apsStage rs).1 = none := by
  simp [apsStage, h]

theorem imuStage_none_of_nil (rs : List Rec2)
    (h : rs.filter imuMask = []) : (imuStage rs).1 = none := by
  simp [imuStage, h]

/-- C10: at the decoder interface absence is represented by None, never
by an empty value: the header is None exactly when the stripped header
text is empty, the gen-1 DVS array is None exactly when fewer than 6
post-header bytes remain, the gen-2 DVS array is None exactly when no
record is DVS-classified, the gen-2 APS (respectively IMU) array is
None when no record is APS-classified (respectively IMU-classified),
and every array that is present is non-empty. -/
theorem claim_C10 :
    (∀ data h rest a, readAerdatHeader data = Except.ok (h, rest) →
      readAerdat1 data = Except.ok a →
        (a.header = none ↔ h = []) ∧ (a.dvs = none ↔ rest.length < 6) ∧
        (∀ l, a.dvs = some l → l ≠ [])) ∧
    (∀ data h rest r, readAerdatHeader data = Except.ok (h, rest) →
      readAerdat2 data = Except.ok r →
        (r.header = none ↔ h = []) ∧
        (r.dvs = none ↔ (sortRecords (parseRecords8 rest)).filter dvsMask = []) ∧
        (∀ l, r.dvs = some l → l ≠ []) ∧
        (∀ l, r.aps = some l → l ≠ []) ∧
        (∀ l, r.imu = some l → l ≠ []) ∧
        ((sortRecords (parseRecords8 rest)).filter apsMask = [] → r.aps = none) ∧
        ((sortRecords (parseRecords8 rest)).filter imuMask = [] → r.imu = none)) := by
  constructor
  · intro data h rest a hhdr hdec
    rw [readAerdat1, hhdr] at hdec
    obtain rfl : _ = a := Except.ok.inj hdec
    refine ⟨?_, ?_, ?_⟩
    · by_cases hl : 0 < h.length
      · simp only [if_pos hl, reduceCtorEq, false_iff]
        intro hnil
        rw [hnil] at hl
        simp at hl
      · simp only [if_neg hl, true_iff]
        have : h.length = 0 := by omega
        exact List.length_eq_zero.mp this
    · have hlen : (parseRecords6 rest).length = rest.length / 6 :=
        parseRecords6_length rest
      by_cases hp : 0 < (parseRecords6 rest).length
      · simp only [if_pos hp, reduceCtorEq, false_iff]
        omega
      · simp only [if_neg hp, true_iff]
        omega
    · intro l hl
      by_cases hp : 0 < (parseRecords6 rest).length
      · simp only [if_pos hp] at hl
        obtain rfl : _ = l := Option.some.inj hl
        intro hnil
        have hlen := congrArg List.length hnil
        rw [List.length_map] at hlen
        simp only [List.length_nil] at hlen
        omega
      · simp only [if_neg hp] at hl
        cases hl
  · intro data h rest r hhdr hdec
    simp only [readAerdat2, hhdr] at hdec
    obtain rfl : _ = r := Except.ok.inj hdec
    refine ⟨?_, ?_, ?_, ?_, ?_, ?_, ?_⟩
    · by_cases hl : 0 < h.length
      · simp only [if_pos hl, reduceCtorEq, false_iff]
        intro hnil
        rw [hnil] at hl
        simp at hl
      · simp only [if_neg hl, true_iff]
        have : h.length = 0 := by omega
        exact List.length_eq_zero.mp this
    · exact dvsStage_none_iff _
    · intro l
      exact dvsStage_some_ne_nil _ l
    · intro l
      exact apsStage_some_ne_nil _ l
    · intro l
      exact imuStage_some_ne_nil _ l
    · intro hnil
      exact apsStage_none_of_nil _ hnil
    · intro hnil
      exact imuStage_none_of_nil _ hnil

/-- Witness for C10: a headerless gen-1 stream of five bytes decodes to
header = None and dvs = None; a headerless gen-2 stream with one DVS
record and no APS or IMU records has a non-empty DVS array, aps = None
and imu = None. -/
theorem claim_C10_witness :
    readAerdat1 [7, 0, 0, 0, 0] = Except.ok { header := none, dvs := none } ∧
    ({ header := none, dvs := none } : Aerdat1).dvs = none ∧
    [7, 0, 0, 0, 0].length < 6 ∧
    (∀ l, (decode2Dvs [0, 0, 0, 0, 0, 0, 0, 1]).getD none = some l → l ≠ []) ∧
    decode2ApsLen [0, 0, 0, 0, 0, 0, 0, 1] = some none ∧
    decode2Imu [0, 0, 0, 0, 0, 0, 0, 1] = some none := by
  have hh := readAerdatHeader_cons_ne 7 [0, 0, 0, 0] (by decide)
  have hd : readAerdat1 [7, 0, 0, 0, 0] = Except.ok { header := none, dvs := none } := by
    simp only [readAerdat1, hh]
    decide
  have hh2 := readAerdatHeader_cons_ne 0 [0, 0, 0, 0, 0, 0, 1] (by decide)
  have hr : readAerdat2 [0, 0, 0, 0, 0, 0, 0, 1] = Except.ok
      { header := none
        dvs := dvsStage (sortRecords (parseRecords8 [0, 0, 0, 0, 0, 0, 0, 1]))
        aps := (apsStage (sortRecords (parseRecords8 [0, 0, 0, 0, 0, 0, 0, 1]))).1
        imu := (imuStage (sortRecords (parseRecords8 [0, 0, 0, 0, 0, 0, 0, 1]))).1
        aps_corrupted := (apsStage (sortRecords (parseRecords8 [0, 0, 0, 0, 0, 0, 0, 1]))).2
        imu_corrupted := (imuStage (sortRecords (parseRecords8 [0, 0, 0, 0, 0, 0, 0, 1]))).2 } := by
    simp only [readAerdat2, hh2]
    rfl
  have H2 := claim_C10.2 [0, 0, 0, 0, 0, 0, 0, 1] [] [0, 0, 0, 0, 0, 0, 0, 1] _ hh2 hr
  refine ⟨hd, ?_, by decide, ?_, ?_, ?_⟩
  · exact (claim_C10.1 [7, 0, 0, 0, 0] [] [7, 0, 0, 0, 0] _ hh hd).2.1.mpr (by decide)
  · intro l hl
    simp only [decode2Dvs, hr, Option.getD_some] at hl
    exact H2.2.2.1 l hl
  · have haps : (apsStage (sortRecords (parseRecords8 [0, 0, 0, 0, 0, 0, 0, 1]))).1 = none :=
      H2.2.2.2.2.2.1 (by decide)
    simp only [decode2ApsLen, hr]
    show some (Option.map List.length
      (apsStage (sortRecords (parseRecords8 [0, 0, 0, 0, 0, 0, 0, 1]))).1) = some none
    rw [haps]
    rfl
  · have himu : (imuStage (sortRecords (parseRecords8 [0, 0, 0, 0, 0, 0, 0, 1]))).1 = none :=
      H2.2.2.2.2.2.2 (by decide)
    simp only [decode2Imu, hr]
    show some (imuStage (sortRecords (parseRecords8 [0, 0, 0, 0, 0, 0, 0, 1]))).1 = some none
    rw [himu]

/-! ## Claim C3: header stripping and the truncated-header error -/

theorem fullHeaderData_nil : fullHeaderData [] := ⟨[], by simp, by simp⟩

theorem fullHeaderData_head (d : List Nat) (hd : fullHeaderData d) :
    d = [] ∨ ∃ tail, d = 35 :: tail := by
  obtain ⟨lines, hlines, rfl⟩ := hd
  cases lines with
  | nil => exact Or.inl rfl
  | cons l ls =>
    obtain ⟨t, rfl, _, _⟩ := hlines l (List.mem_cons_self l ls)
    exact Or.inr ⟨t ++ [10] ++ (ls.map (fun l => l ++ [10])).flatten, by simp⟩

theorem fullHeaderData_cons35 (tail : List Nat) :
    fullHeaderData (35 :: tail) ↔
      ∃ t rest2, tail = t ++ 10 :: rest2 ∧ (∀ b ∈ t, b < 128) ∧ 10 ∉ t ∧
        fullHeaderData rest2 := by
  constructor
  · intro hd
    obtain ⟨lines, hlines, heq⟩ := hd
    cases lines with
    | nil => simp at heq
    | cons l ls =>
      obtain ⟨t, rfl, hascii, hno10⟩ := hlines l (List.mem_cons_self l ls)
      rw [List.map_cons, List.flatten_cons] at heq
      have heq2 : 35 :: tail
          = 35 :: (t ++ 10 :: (ls.map (fun l => l ++ [10])).flatten) := by
        simp [heq]
      exact ⟨t, (ls.map (fun l => l ++ [10])).flatten, (List.cons.inj heq2).2, hascii,
        hno10, ls, (fun l2 hl2 => hlines l2 (List.mem_cons_of_mem _ hl2)), rfl⟩
  · intro hex
    obtain ⟨t, rest2, heq, hascii, hno10, ls, hls, heq2⟩ := hex
    refine ⟨(35 :: t) :: ls, ?_, ?_⟩
    · intro l hl
      cases List.mem_cons.mp hl with
      | inl h => exact h ▸ ⟨t, rfl, hascii, hno10⟩
      | inr h => exact hls l h
    · rw [List.map_cons, List.flatten_cons, heq, ← heq2]
      simp

theorem findIdx10_of_decomp (t rest2 : List Nat) (hno10 : 10 ∉ t) :
    (t ++ 10 :: rest2).findIdx? (fun c => c = 10) = some t.length := by
  rw [List.findIdx?_eq_some_iff_getElem]
  refine ⟨by simp, ?_, ?_⟩
  · simp only [decide_eq_true_eq]
    rw [List.getElem_append_right (Nat.le_refl t.length)]
    simp
  · intro k hk
    simp only [decide_eq_true_eq]
    rw [List.getElem_append_left hk]
    intro hc
    apply hno10
    rw [← hc]
    exact List.getElem_mem _

theorem decomp_of_findIdx10 (tail : List Nat) (j : Nat)
    (hfind : tail.findIdx? (fun c => c = 10) = some j) :
    tail = tail.take j ++ 10 :: tail.drop (j + 1) ∧ 10 ∉ tail.take j ∧
      j < tail.length := by
  rw [List.findIdx?_eq_some_iff_getElem] at hfind
  obtain ⟨hj, hat, hbefore⟩ := hfind
  simp only [decide_eq_true_eq] at hat
  refine ⟨?_, ?_, hj⟩
  · conv_lhs => rw [← List.take_append_drop j tail, List.drop_eq_getElem_cons hj]
    rw [hat]
  · intro hmem
    obtain ⟨k, hk, hkeq⟩ := List.mem_iff_getElem.mp hmem
    have hkj : k < j := by
      have h2 := hk
      simp only [List.length_take] at h2
      omega
    have hb2 := hbefore k hkj
    simp only [decide_eq_true_eq] at hb2
    simp only [List.getElem_take] at hkeq
    exact hb2 hkeq

theorem readAerdatHeaderGo_error_iff (acc rest : List Nat) :
    readAerdatHeaderGo acc rest = Except.error () ↔ fullHeaderData rest := by
  induction acc, rest using readAerdatHeaderGo.induct with
  | case1 acc =>
    rw [readAerdatHeaderGo]
    simp only [true_iff]
    exact fullHeaderData_nil
  | case2 acc tail hfind =>
    rw [readAerdatHeaderGo]
    simp only [reduceIte, hfind, reduceCtorEq, false_iff]
    intro hd
    rw [fullHeaderData_cons35] at hd
    obtain ⟨t, rest2, rfl, _, hno10, _⟩ := hd
    rw [findIdx10_of_decomp t rest2 hno10] at hfind
    cases hfind
  | case3 acc tail j hfind hascii ih =>
    rw [readAerdatHeaderGo]
    simp only [reduceIte, hfind, if_pos hascii]
    rw [ih]
    obtain ⟨hdec, hno10, hjlen⟩ := decomp_of_findIdx10 tail j hfind
    constructor
    · intro hfull
      rw [fullHeaderData_cons35]
      refine ⟨tail.take j, tail.drop (j + 1), hdec, ?_, hno10, hfull⟩
      intro b hbmem
      have := List.all_eq_true.mp hascii b hbmem
      simpa using this
    · intro hfull
      rw [fullHeaderData_cons35] at hfull
      obtain ⟨t, rest2, hdec2, _, hno10t, hrest2⟩ := hfull
      have hfind2 : tail.findIdx? (fun c => c = 10) = some t.length := by
        rw [hdec2]
        exact findIdx10_of_decomp t rest2 hno10t
      rw [hfind] at hfind2
      obtain rfl : j = t.length := Option.some.inj hfind2
      have hdrop : tail.drop (t.length + 1) = rest2 := by
        rw [hdec2]
        rw [show t ++ 10 :: rest2 = (t ++ [10]) ++ rest2 from by simp]
        have hl : (t ++ [10]).length = t.length + 1 := by simp
        rw [← hl, List.drop_left]
      rw [hdrop]
      exact hrest2
  | case4 acc tail j hfind hascii =>
    rw [readAerdatHeaderGo]
    simp only [reduceIte, hfind, if_neg hascii, reduceCtorEq, false_iff]
    intro hd
    rw [fullHeaderData_cons35] at hd
    obtain ⟨t, rest2, hdec2, hasciit, hno10t, _⟩ := hd
    have hfind2 : tail.findIdx? (fun c => c = 10) = some t.length := by
      rw [hdec2]
      exact findIdx10_of_decomp t rest2 hno10t
    rw [hfind] at hfind2
    obtain rfl : j = t.length := Option.some.inj hfind2
    apply hascii
    rw [hdec2, List.take_left]
    rw [List.all_eq_true]
    intro b hbmem
    simpa using hasciit b hbmem
  | case5 acc b tail hb =>
    rw [readAerdatHeaderGo]
    simp only [if_neg hb, reduceCtorEq, false_iff]
    intro hd
    cases fullHeaderData_head _ hd with
    | inl h => cases h
    | inr h =>
      obtain ⟨tl, heq⟩ := h
      exact hb (List.cons.inj heq).1

theorem take_succ_of_findIdx10 (tail : List Nat) (j : Nat)
    (hdec : tail = tail.take j ++ 10 :: tail.drop (j + 1))
    (hjlen : j < tail.length) :
    tail.take (j + 1) = tail.take j ++ [10] := by
  conv_lhs => rw [hdec]
  rw [show tail.take j ++ 10 :: tail.drop (j + 1)
      = (tail.take j ++ [10]) ++ tail.drop (j + 1) from by simp]
  rw [List.take_append_eq_append_take]
  have hlen : (tail.take j ++ [10]).length = j + 1 := by
    simp
    omega
  rw [List.take_of_length_le (by omega)]
  simp [hlen]

theorem readAerdatHeaderGo_ok (acc rest h r : List Nat)
    (hok : readAerdatHeaderGo acc rest = Except.ok (h, r)) :
    ∃ c, h = acc ++ c ∧ c ++ r = rest ∧ fullHeaderData c ∧ r ≠ [] := by
  induction acc, rest using readAerdatHeaderGo.induct generalizing h r with
  | case1 acc =>
    rw [readAerdatHeaderGo] at hok
    cases hok
  | case2 acc tail hfind =>
    rw [readAerdatHeaderGo] at hok
    simp only [reduceIte, hfind] at hok
    obtain ⟨rfl, rfl⟩ := Prod.mk.inj (Except.ok.inj hok)
    exact ⟨[], by simp, by simp, fullHeaderData_nil, by simp⟩
  | case3 acc tail j hfind hascii ih =>
    rw [readAerdatHeaderGo] at hok
    simp only [reduceIte, hfind, if_pos hascii] at hok
    obtain ⟨c, rfl, hcr, hfull, hne⟩ := ih h r hok
    obtain ⟨hdec, hno10, hjlen⟩ := decomp_of_findIdx10 tail j hfind
    have htake := take_succ_of_findIdx10 tail j hdec hjlen
    refine ⟨(35 :: tail.take (j + 1)) ++ c, by simp, ?_, ?_, hne⟩
    · rw [htake]
      conv_rhs => rw [hdec]
      rw [← hcr]
      simp
    · rw [List.cons_append, fullHeaderData_cons35]
      refine ⟨tail.take j, c, ?_, ?_, hno10, hfull⟩
      · rw [htake]
        simp
      · intro b hbmem
        have := List.all_eq_true.mp hascii b hbmem
        simpa using this
  | case4 acc tail j hfind hascii =>
    rw [readAerdatHeaderGo] at hok
    simp only [reduceIte, hfind, if_neg hascii] at hok
    obtain ⟨rfl, rfl⟩ := Prod.mk.inj (Except.ok.inj hok)
    exact ⟨[], by simp, by simp, fullHeaderData_nil, by simp⟩
  | case5 acc b tail hb =>
    rw [readAerdatHeaderGo] at hok
    simp only [if_neg hb] at hok
    obtain ⟨rfl, rfl⟩ := Prod.mk.inj (Except.ok.inj hok)
    exact ⟨[], by simp, by simp, fullHeaderData_nil, by simp⟩

/-- C3 as amended: the shared header stripper fails with the
truncated-header error exactly when the whole input is a (possibly
empty) concatenation of complete newline-terminated ASCII comment
lines, i.e. when end of input is reached at a line boundary; on success
it returns a split of the input whose consumed part is such a
concatenation and whose remainder is non-empty (scanning stopped at a
non-# line, an unterminated # line, or a non-ASCII # line). -/
theorem claim_C3_amended :
    (∀ data, readAerdatHeader data = Except.error () ↔ fullHeaderData data) ∧
    (∀ data h r, readAerdatHeader data = Except.ok (h, r) →
      h ++ r = data ∧ fullHeaderData h ∧ r ≠ []) := by
  constructor
  · intro data
    exact readAerdatHeaderGo_error_iff [] data
  · intro data h r hok
    obtain ⟨c, hc, hcr, hfull, hne⟩ := readAerdatHeaderGo_ok [] data h r hok
    simp only [List.nil_append] at hc
    subst hc
    exact ⟨hcr, hfull, hne⟩

/-- Witness for claim_C3_amended at concrete inputs. -/
theorem claim_C3_amended_witness :
    fullHeaderData [35, 97, 10] ∧
    ([35, 98] ++ [66] = [35, 98, 66] ∧ fullHeaderData [35, 98] → False) ∧
    (readAerdatHeader [35, 97, 10] = Except.error ()) ∧
    (readAerdatHeader [35, 97, 10, 66] = Except.ok ([35, 97, 10], [66]) →
      [35, 97, 10] ++ [66] = [35, 97, 10, 66] ∧ fullHeaderData [35, 97, 10] ∧
        ([66] : List Nat) ≠ []) := by
  have h1 : fullHeaderData [35, 97, 10] := ⟨[[35, 97]], by
    intro l hl
    simp at hl
    subst hl
    exact ⟨[97], rfl, by decide, by simp⟩, by simp⟩
  refine ⟨h1, ?_, ?_, ?_⟩
  · intro ⟨_, hcontra⟩
    have := fullHeaderData_cons35 [98]
    rw [this] at hcontra
    obtain ⟨t, rest2, habs, _, _, _⟩ := hcontra
    cases t with
    | nil => simp at habs
    | cons a tl => simp at habs
  · exact (claim_C3_amended.1 [35, 97, 10]).mpr h1
  · intro hok
    exact claim_C3_amended.2 [35, 97, 10, 66] [35, 97, 10] [66] hok

/-- Counterexample for C3 as stated: a # line with no newline before
end of input does not raise the truncated-header error (the line is
returned as remainder), while an input consisting of one complete
newline-terminated # line does raise it. -/
theorem claim_C3_counterexample :
    readAerdatHeader [35, 97] = Except.ok ([], [35, 97]) ∧
    [35, 97].head? = some 35 ∧ (10 : Nat) ∉ [35, 97] ∧
    readAerdatHeader [35, 97, 10] = Except.error () := by
  refine ⟨?_, by decide, by decide, ?_⟩
  · simp [readAerdatHeader, readAerdatHeaderGo]
  · simp [readAerdatHeader, readAerdatHeaderGo]

/-! ## Claim C8: timestamp re-sorting -/

theorem needsSort_eq_false_iff (rs : List Rec2) :
    needsSort rs = false ↔ List.Chain' (fun a b => a.t ≤ b.t) rs := by
  induction rs with
  | nil => simp [needsSort]
  | cons a tl ih =>
    cases tl with
    | nil => simp [needsSort]
    | cons b tl2 =>
      rw [needsSort, List.chain'_cons, ← ih]
      simp only [Bool.or_eq_false_iff, decide_eq_false_iff_not, Nat.not_lt]

theorem recLe_trans (a b c : Rec2) (hab : recLe a b = true)
    (hbc : recLe b c = true) : recLe a c = true := by
  simp only [recLe, Bool.or_eq_true, Bool.and_eq_true, decide_eq_true_eq,
    beq_iff_eq] at hab hbc ⊢
  omega

theorem recLe_total (a b : Rec2) : recLe a b || recLe b a := by
  simp only [recLe, Bool.or_eq_true, Bool.and_eq_true, decide_eq_true_eq,
    beq_iff_eq]
  omega

theorem recLe_t_le (a b : Rec2) (h : recLe a b = true) : a.t ≤ b.t := by
  simp only [recLe, Bool.or_eq_true, Bool.and_eq_true, decide_eq_true_eq,
    beq_iff_eq] at h
  omega

theorem sortRecords_perm (rs : List Rec2) : (sortRecords rs).Perm rs := by
  rw [sortRecords]
  by_cases hs : needsSort rs = true
  · rw [if_pos hs]
    exact List.mergeSort_perm rs recLe
  · rw [if_neg hs]

theorem sortRecords_chain (rs : List Rec2) :
    List.Chain' (fun a b => a.t ≤ b.t) (sortRecords rs) := by
  rw [sortRecords]
  by_cases hs : needsSort rs = true
  · rw [if_pos hs]
    have hp : (rs.mergeSort recLe).Pairwise (fun a b => recLe a b = true) :=
      List.sorted_mergeSort recLe_trans recLe_total rs
    exact List.Pairwise.chain' (List.Pairwise.imp (fun h => recLe_t_le _ _ h) hp)
  · rw [if_neg hs]
    exact (needsSort_eq_false_iff rs).mp (by simpa using hs)

/-- Helper shared by C4 and C8: decoding never fails after a successful
header parse (disorder and corruption are recoverable, not raised). -/
theorem readAerdat2_isOk (data h rest : List Nat)
    (hhdr : readAerdatHeader data = Except.ok (h, rest)) :
    (readAerdat2 data).isOk = true := by
  simp only [readAerdat2, hhdr, Except.isOk, Except.toBool]

/-- C8 as amended: when the 8-byte records' timestamps are already
non-decreasing the record order is left unchanged; otherwise the whole
array is re-sorted before classification by the lexicographic order on
(timestamp, byte0, byte1, byte2, byte3) - numpy.sort with order=["t"]
uses the remaining fields to break timestamp ties, so the re-sort is
not stable with respect to arrival order; out-of-order timestamps never
raise an error. -/
theorem claim_C8_amended (data h rest : List Nat)
    (hhdr : readAerdatHeader data = Except.ok (h, rest)) :
    (List.Chain' (fun a b => a.t ≤ b.t) (parseRecords8 rest) →
        records2 data = parseRecords8 rest) ∧
    (records2 data).Perm (parseRecords8 rest) ∧
    List.Chain' (fun a b => a.t ≤ b.t) (records2 data) ∧
    (¬ List.Chain' (fun a b => a.t ≤ b.t) (parseRecords8 rest) →
        records2 data = (parseRecords8 rest).mergeSort recLe ∧
        (records2 data).Pairwise (fun a b => recLe a b = true)) ∧
    (readAerdat2 data).isOk = true := by
  have hrec : records2 data = sortRecords (parseRecords8 rest) := by
    simp only [records2, hhdr]
  refine ⟨?_, ?_, ?_, ?_, readAerdat2_isOk data h rest hhdr⟩
  · intro hchain
    have hs : needsSort (parseRecords8 rest) = false :=
      (needsSort_eq_false_iff _).mpr hchain
    rw [hrec, sortRecords, hs]
    simp
  · rw [hrec]
    exact sortRecords_perm _
  · rw [hrec]
    exact sortRecords_chain _
  · intro hchain
    have hs : needsSort (parseRecords8 rest) = true := by
      cases hb : needsSort (parseRecords8 rest) with
      | true => rfl
      | false => exact absurd ((needsSort_eq_false_iff _).mp hb) hchain
    constructor
    · rw [hrec, sortRecords, if_pos hs]
    · rw [hrec, sortRecords, if_pos hs]
      exact List.sorted_mergeSort recLe_trans recLe_total _

/-- Witness for claim_C8_amended at the concrete disordered stream
c8data. -/
theorem claim_C8_amended_witness :
    readAerdatHeader c8data = Except.ok ([], c8data) ∧
    (records2 c8data).Perm (parseRecords8 c8data) ∧
    List.Chain' (fun a b => a.t ≤ b.t) (records2 c8data) ∧
    (readAerdat2 c8data).isOk = true := by
  have hh : readAerdatHeader c8data = Except.ok ([], c8data) :=
    readAerdatHeader_cons_ne 0
      [0, 32, 0, 0, 0, 0, 10, 0, 0, 16, 0, 0, 0, 0, 3, 0, 0, 0, 0, 0, 0, 0, 3]
      (by decide)
  have h2 := claim_C8_amended c8data [] c8data hh
  exact ⟨hh, h2.2.1, h2.2.2.1, h2.2.2.2.2⟩

/-- Counterexample for C8 as stated: the stream c8data carries two
records with equal timestamp 3 in arrival order (x=1 then x=0); a
stable re-sort by timestamp would keep that order, but the decoder
outputs x=0 before x=1 because numpy.sort(order=["t"]) breaks the
timestamp tie by the data bytes. -/
theorem claim_C8_counterexample :
    needsSort (parseRecords8 c8data) = true ∧
    decode2Dvs c8data = some (some
      [{ t := 3, x := 0, y := 0, p := 0 }, { t := 3, x := 1, y := 0, p := 0 },
       { t := 10, x := 2, y := 0, p := 0 }]) ∧
    dvsStage (stableSortByT (parseRecords8 c8data)) = some
      [{ t := 3, x := 1, y := 0, p := 0 }, { t := 3, x := 0, y := 0, p := 0 },
       { t := 10, x := 2, y := 0, p := 0 }] ∧
    decode2Dvs c8data ≠ some (dvsStage (stableSortByT (parseRecords8 c8data))) := by
  have hh : readAerdatHeader c8data = Except.ok ([], c8data) :=
    readAerdatHeader_cons_ne 0
      [0, 32, 0, 0, 0, 0, 10, 0, 0, 16, 0, 0, 0, 0, 3, 0, 0, 0, 0, 0, 0, 0, 3]
      (by decide)
  have hsort : sortRecords (parseRecords8 c8data) =
      [{ d0 := 0, d1 := 0, d2 := 0, d3 := 0, t := 3 },
       { d0 := 0, d1 := 0, d2 := 16, d3 := 0, t := 3 },
       { d0 := 0, d1 := 0, d2 := 32, d3 := 0, t := 10 }] := by
    simp [c8data, parseRecords8, sortRecords, needsSort, beU32, List.mergeSort, recLe]
  have hstable : stableSortByT (parseRecords8 c8data) =
      [{ d0 := 0, d1 := 0, d2 := 16, d3 := 0, t := 3 },
       { d0 := 0, d1 := 0, d2 := 0, d3 := 0, t := 3 },
       { d0 := 0, d1 := 0, d2 := 32, d3 := 0, t := 10 }] := by
    simp [c8data, parseRecords8, stableSortByT, beU32, List.mergeSort]
  have hcode : decode2Dvs c8data = some (some
      [{ t := 3, x := 0, y := 0, p := 0 }, { t := 3, x := 1, y := 0, p := 0 },
       { t := 10, x := 2, y := 0, p := 0 }]) := by
    simp only [decode2Dvs, readAerdat2, hh, hsort]
    decide
  have hspec : dvsStage (stableSortByT (parseRecords8 c8data)) = some
      [{ t := 3, x := 1, y := 0, p := 0 }, { t := 3, x := 0, y := 0, p := 0 },
       { t := 10, x := 2, y := 0, p := 0 }] := by
    rw [hstable]
    decide
  refine ⟨by decide, hcode, hspec, ?_⟩
  rw [hcode, hspec]
  decide

/-! ## Claim C4: APS zero-frame handling -/

/-- C4: if the APS reconstruction runs (at least one APS-classified
record) and emits zero frames, the decoder returns aps_corrupted = true
with aps = None; this never raises (decoding always succeeds once the
header parses); and an in-progress frame whose four timestamps are all
set at end of stream is emitted as the final frame. -/
theorem claim_C4 :
    (∀ data h rest, readAerdatHeader data = Except.ok (h, rest) →
      (readAerdat2 data).isOk = true) ∧
    (∀ data r, readAerdat2 data = Except.ok r →
      (records2 data).filter apsMask ≠ [] →
      apsFramesAll ((records2 data).filter apsMask) = [] →
        r.aps_corrupted = true ∧ r.aps = none) ∧
    (∀ aps_data : List Rec2, apsAllSet (apsLoop aps_data).1 = true →
      apsFramesAll aps_data
        = (apsLoop aps_data).2 ++ [stateFrame (apsLoop aps_data).1]) := by
  refine ⟨readAerdat2_isOk, ?_, ?_⟩
  · intro data r hdec hne hframes
    cases hh : readAerdatHeader data with
    | error e =>
      rw [readAerdat2, hh] at hdec
      cases hdec
    | ok pair =>
      obtain ⟨h, rest⟩ := pair
      have hrecs : records2 data = sortRecords (parseRecords8 rest) := by
        simp only [records2, hh]
      rw [hrecs] at hne hframes
      simp only [readAerdat2, hh] at hdec
      obtain rfl : _ = r := Except.ok.inj hdec
      have hstage : apsStage (sortRecords (parseRecords8 rest)) = (none, true) := by
        simp only [apsStage]
        rw [if_pos (by
          cases hfl : (sortRecords (parseRecords8 rest)).filter apsMask with
          | nil => exact absurd hfl hne
          | cons x xs => simp [hfl])]
        rw [if_pos (by rw [hframes]; rfl)]
      exact ⟨by rw [hstage], by rw [hstage]⟩
  · intro aps_data hset
    rw [apsFramesAll, hset]
    simp

/-- Witness for claim_C4: the single out-of-marker reset record c4bad
yields zero frames, aps_corrupted and no APS array; the full cycle
c4good ends with all four timestamps set and emits its final frame. -/
theorem claim_C4_witness :
    readAerdatHeader c4bad = Except.ok ([], c4bad) ∧
    (readAerdat2 c4bad).isOk = true ∧
    decode2ApsCorrupted c4bad = some true ∧
    decode2ApsLen c4bad = some none ∧
    apsAllSet (apsLoop ((records2 c4good).filter apsMask)).1 = true ∧
    apsFramesAll ((records2 c4good).filter apsMask)
      = (apsLoop ((records2 c4good).filter apsMask)).2
        ++ [stateFrame (apsLoop ((records2 c4good).filter apsMask)).1] := by
  have hh : readAerdatHeader c4bad = Except.ok ([], c4bad) :=
    readAerdatHeader_cons_ne 129 [64, 0, 0, 0, 0, 0, 1] (by decide)
  have hrecs : records2 c4bad = sortRecords (parseRecords8 c4bad) := by
    simp only [records2, hh]
  have hr : readAerdat2 c4bad = Except.ok
      { header := none
        dvs := dvsStage (sortRecords (parseRecords8 c4bad))
        aps := (apsStage (sortRecords (parseRecords8 c4bad))).1
        imu := (imuStage (sortRecords (parseRecords8 c4bad))).1
        aps_corrupted := (apsStage (sortRecords (parseRecords8 c4bad))).2
        imu_corrupted := (imuStage (sortRecords (parseRecords8 c4bad))).2 } := by
    simp only [readAerdat2, hh]
    rfl
  have hne : (records2 c4bad).filter apsMask ≠ [] := by
    rw [hrecs]
    decide
  have hframes : apsFramesAll ((records2 c4bad).filter apsMask) = [] := by
    rw [hrecs]
    rfl
  obtain ⟨hcor, haps⟩ := claim_C4.2.1 c4bad _ hr hne hframes
  have hgood : records2 c4good = sortRecords (parseRecords8 c4good) := by
    have hh2 : readAerdatHeader c4good = Except.ok ([], c4good) :=
      readAerdatHeader_cons_ne 128
        [0, 0, 0, 0, 0, 0, 1, 128, 0, 16, 0, 0, 0, 0, 2, 128, 0, 20, 0, 0, 0, 0, 3]
        (by decide)
    simp only [records2, hh2]
  have hset : apsAllSet (apsLoop ((records2 c4good).filter apsMask)).1 = true := by
    rw [hgood]
    rfl
  refine ⟨hh, claim_C4.1 c4bad [] c4bad hh, ?_, ?_, hset, claim_C4.2.2 _ hset⟩
  · simp only [decode2ApsCorrupted, hr]
    have hcor2 : (apsStage (sortRecords (parseRecords8 c4bad))).2 = true := hcor
    rw [hcor2]
  · simp only [decode2ApsLen, hr]
    have haps2 : (apsStage (sortRecords (parseRecords8 c4bad))).1 = none := haps
    rw [haps2]
    rfl

/-! ## Claim C6: hash and size integrity of file writes -/

theorem openFile_foldl_spec {σ : Type} (C : Compressor σ) (writes : List (List Nat)) :
    ∀ st : OpenFile σ,
      (writes.foldl (writeRaw C) st).uncompressedFed
          = st.uncompressedFed ++ writes.flatten ∧
      (writes.foldl (writeRaw C) st).size = st.size + writes.flatten.length ∧
      (st.compressedFed = st.disk ∧ st.compressionSize = st.disk.length →
        (writes.foldl (writeRaw C) st).compressedFed
            = (writes.foldl (writeRaw C) st).disk ∧
        (writes.foldl (writeRaw C) st).compressionSize
            = (writes.foldl (writeRaw C) st).disk.length) := by
  induction writes with
  | nil =>
    intro st
    simp
  | cons w ws ih =>
    intro st
    obtain ⟨ih1, ih2, ih3⟩ := ih (writeRaw C st w)
    refine ⟨?_, ?_, ?_⟩
    · rw [List.foldl_cons, ih1]
      simp [writeRaw]
    · rw [List.foldl_cons, ih2]
      simp only [writeRaw, List.flatten_cons, List.length_append]
      omega
    · intro ⟨hfed, hsize⟩
      rw [List.foldl_cons]
      apply ih3
      constructor
      · simp [writeRaw, hfed]
      · simp only [writeRaw, List.length_append, hsize]

/-- C6: after close, the registered entry's uncompressed hash is the
hash of the concatenation, in call order, of all buffers passed to
write_raw, its size is their total byte count, and the compression
entry's hash and size are the hash and byte count of the bytes actually
written to the handle on disk, the compressor's final trailer
included. -/
theorem claim_C6 {σ α : Type} (C : Compressor σ) (H : List Nat → α) (c0 : σ)
    (writes : List (List Nat)) :
    (closeFile C H (writes.foldl (writeRaw C) (newOpenFile c0))).entryHash
        = H writes.flatten ∧
    (closeFile C H (writes.foldl (writeRaw C) (newOpenFile c0))).entrySize
        = writes.flatten.length ∧
    (closeFile C H (writes.foldl (writeRaw C) (newOpenFile c0))).compressionHash
        = H (closeFile C H (writes.foldl (writeRaw C) (newOpenFile c0))).disk ∧
    (closeFile C H (writes.foldl (writeRaw C) (newOpenFile c0))).compressionSize
        = (closeFile C H (writes.foldl (writeRaw C) (newOpenFile c0))).disk.length := by
  obtain ⟨h1, h2, h3⟩ := openFile_foldl_spec C writes (newOpenFile c0)
  obtain ⟨hfed, hsize⟩ := h3 (by simp [newOpenFile])
  refine ⟨?_, ?_, ?_, ?_⟩
  · simp only [closeFile]
    rw [h1]
    simp [newOpenFile]
  · simp only [closeFile]
    rw [h2]
    simp [newOpenFile]
  · simp only [closeFile]
    rw [hfed]
  · simp only [closeFile]
    rw [hsize]
    simp

/-! ## Claim C2: rule evaluation in task generation -/

theorem evalRules_none_iff (rules : List Rule) (p : RelPath) :
    ∀ name, evalRules rules p name = none ↔
      ∃ r ∈ rules, r.matchPath p = true ∧ r.skipFlag = true := by
  induction rules with
  | nil => intro name; simp [evalRules]
  | cons r rest ih =>
    intro name
    rw [evalRules]
    by_cases hm : r.matchPath p = true
    · rw [if_pos hm]
      by_cases hs : r.skipFlag = true
      · rw [if_pos hs]
        simp only [true_iff]
        exact ⟨r, List.mem_cons_self r rest, hm, hs⟩
      · rw [if_neg hs]
        rw [ih]
        constructor
        · intro ⟨r2, hr2, hmatch, hskip⟩
          exact ⟨r2, List.mem_cons_of_mem r hr2, hmatch, hskip⟩
        · intro ⟨r2, hr2, hmatch, hskip⟩
          cases List.mem_cons.mp hr2 with
          | inl heq => exact absurd (heq ▸ hskip) hs
          | inr hmem => exact ⟨r2, hmem, hmatch, hskip⟩
    · rw [if_neg hm]
      rw [ih]
      constructor
      · intro ⟨r2, hr2, hmatch, hskip⟩
        exact ⟨r2, List.mem_cons_of_mem r hr2, hmatch, hskip⟩
      · intro ⟨r2, hr2, hmatch, hskip⟩
        cases List.mem_cons.mp hr2 with
        | inl heq => exact absurd (heq ▸ hmatch) hm
        | inr hmem => exact ⟨r2, hmem, hmatch, hskip⟩

theorem evalRules_no_skip (rules : List Rule) (p : RelPath)
    (hns : ∀ r ∈ rules, r.matchPath p = true → r.skipFlag = false) :
    ∀ name, evalRules rules p name =
      some ((rules.filter (fun r => r.matchPath p)).foldl
        (fun n r => r.renameFn n) name) := by
  induction rules with
  | nil => intro name; simp [evalRules]
  | cons r rest ih =>
    intro name
    rw [evalRules]
    by_cases hm : r.matchPath p = true
    · rw [if_pos hm]
      have hs : r.skipFlag = false := hns r (List.mem_cons_self r rest) hm
      rw [if_neg (by simp [hs])]
      rw [ih (fun r2 h2 => hns r2 (List.mem_cons_of_mem r h2))]
      simp only [List.filter_cons, hm, if_true, List.foldl_cons]
    · rw [if_neg hm]
      rw [ih (fun r2 h2 => hns r2 (List.mem_cons_of_mem r h2))]
      have hmf : r.matchPath p = false := by simpa using hm
      simp only [List.filter_cons, hmf, Bool.false_eq_true, if_false]

theorem dirTasks_sound (rules : List Rule) :
    ∀ (n : Nat) (children : List FsNode), sizeOf children ≤ n →
    ∀ (rel : List String) (pr : List String × String), pr ∈ dirTasks rules rel children →
      (∃ s, s ≠ [] ∧ pr.1 = rel ++ s) ∧
      evalRules rules ⟨pr.1⟩ ((pr.1.getLast?).getD "") = some pr.2 ∧
      (∀ p2 s1 s2, p2 = rel ++ s1 → s1 ≠ [] → p2 ++ s2 = pr.1 →
        evalRules rules ⟨p2⟩ ((p2.getLast?).getD "") ≠ none) := by
  intro n
  induction n with
  | zero =>
    intro children hsz
    cases children with
    | nil =>
      intro rel pr hpr
      rw [dirTasks] at hpr
      simp [sortNodes] at hpr
    | cons c cs => simp at hsz
  | succ m ih =>
    intro children hsz rel pr hpr
    rw [dirTasks] at hpr
    rw [List.mem_append] at hpr
    cases hpr with
    | inl hfile =>
      obtain ⟨q, hq, heq⟩ := List.mem_map.mp hfile
      obtain ⟨nd, hnd, hmap⟩ := List.mem_filterMap.mp (List.mem_of_mem_filter hq)
      obtain ⟨tn, heval, hpair⟩ := Option.map_eq_some'.mp hmap
      have hq1 : q.1 = nd := by rw [← hpair]
      have hq2 : q.2 = tn := by rw [← hpair]
      have hpr1 : pr.1 = rel ++ [nd.name] := by rw [← heq, hq1]
      have hpr2 : pr.2 = tn := by rw [← heq]; exact hq2
      refine ⟨⟨[nd.name], by simp, hpr1⟩, ?_, ?_⟩
      · rw [hpr1, hpr2]
        simp only [List.getLast?_concat, Option.getD_some]
        exact heval
      · intro p2 s1 s2 hp2 hs1 hcat
        rw [hp2] at hcat ⊢
        rw [hpr1, List.append_assoc] at hcat
        have hs12 : s1 ++ s2 = [nd.name] := List.append_cancel_left hcat
        cases s1 with
        | nil => exact absurd rfl hs1
        | cons a s1t =>
          rw [List.cons_append] at hs12
          have ha : a = nd.name := (List.cons.inj hs12).1
          have ht : s1t ++ s2 = [] := (List.cons.inj hs12).2
          have hs1t : s1t = [] := (List.append_eq_nil.mp ht).1
          subst ha
          rw [hs1t]
          simp only [List.getLast?_concat, Option.getD_some]
          rw [heval]
          simp
    | inr hdir =>
      obtain ⟨q, hq, hin⟩ := List.mem_flatMap.mp hdir
      obtain ⟨nd, hnd, hmap⟩ := List.mem_filterMap.mp (List.mem_of_mem_filter q.2)
      obtain ⟨tn, heval, hpair⟩ := Option.map_eq_some'.mp hmap
      have hq1 : q.1.1 = nd := by rw [← hpair]
      rw [hq1] at hin
      have hszn : sizeOf nd.children ≤ m := by
        have h1 : nd ∈ children := by
          have h2 : nd ∈ sortNodes children := hnd
          simp only [sortNodes] at h2
          exact List.mem_mergeSort.mp h2
        have h3 : sizeOf nd < sizeOf children := List.sizeOf_lt_of_mem h1
        have h4 := FsNode.sizeOf_children_lt nd
        omega
      obtain ⟨⟨s, hsne, hs⟩, heval2, hanc⟩ := ih nd.children hszn (rel ++ [nd.name]) pr hin
      refine ⟨⟨[nd.name] ++ s, by simp, by rw [hs, List.append_assoc]⟩, heval2, ?_⟩
      intro p2 s1 s2 hp2 hs1 hcat
      cases s1 with
      | nil => exact absurd rfl hs1
      | cons a s1t =>
        have hcat2 : (rel ++ (a :: s1t)) ++ s2 = rel ++ ([nd.name] ++ s) := by
          rw [← hp2, hcat, hs, List.append_assoc]
        rw [List.append_assoc] at hcat2
        have h5 : (a :: s1t) ++ s2 = [nd.name] ++ s := List.append_cancel_left hcat2
        rw [List.cons_append] at h5
        have ha : a = nd.name := (List.cons.inj h5).1
        subst ha
        cases hcase : s1t with
        | nil =>
          rw [hcase] at hp2
          rw [hp2]
          simp only [List.getLast?_concat, Option.getD_some]
          rw [heval]
          simp
        | cons b s1tt =>
          apply hanc p2 s1t s2
          · rw [hp2]
            simp
          · rw [hcase]
            simp
          · exact hcat

/-- C2 as amended: every rule's match predicate is tested against the
entry's original source-relative path (evalRules threads the unchanged
path); an entry is excluded, with its whole subtree, exactly when some
matching rule is a skip rule; when no matching rule skips, the
destination name is the result of folding the rename of EVERY matching
rule, in rule-list order, over the source name (renames chain: each
receives the previous result, and a later match overrides an earlier
one), so with no matching rule the name passes through unchanged; and
every generated task's target name is exactly this evaluation of its
original source-relative path. -/
theorem claim_C2_amended :
    (∀ rules (p : RelPath) name, evalRules rules p name = none ↔
      ∃ r ∈ rules, r.matchPath p = true ∧ r.skipFlag = true) ∧
    (∀ rules (p : RelPath) name,
      (∀ r ∈ rules, r.matchPath p = true → r.skipFlag = false) →
      evalRules rules p name =
        some ((rules.filter (fun r => r.matchPath p)).foldl
          (fun n r => r.renameFn n) name)) ∧
    (∀ rules (p : RelPath) name, (∀ r ∈ rules, r.matchPath p = false) →
      evalRules rules p name = some name) ∧
    (∀ rules (children : List FsNode) (rel : List String) pr,
      pr ∈ dirTasks rules rel children →
      (∃ s, s ≠ [] ∧ pr.1 = rel ++ s) ∧
      evalRules rules ⟨pr.1⟩ ((pr.1.getLast?).getD "") = some pr.2 ∧
      (∀ p2 s1 s2, p2 = rel ++ s1 → s1 ≠ [] → p2 ++ s2 = pr.1 →
        evalRules rules ⟨p2⟩ ((p2.getLast?).getD "") ≠ none)) := by
  refine ⟨evalRules_none_iff, ?_, ?_, ?_⟩
  · intro rules p name hns
    exact evalRules_no_skip rules p hns name
  · intro rules p name hnm
    have := evalRules_no_skip rules p
      (fun r hr hm => absurd hm (by simp [hnm r hr])) name
    rw [this]
    rw [List.filter_eq_nil_iff.mpr (fun r hr => by simp [hnm r hr])]
    simp
  · intro rules children rel pr hpr
    exact dirTasks_sound rules (sizeOf children) children (Nat.le_refl _) rel pr hpr

/-- Witness for claim_C2_amended on a one-file tree and the two-rule
list c2rules. -/
theorem claim_C2_amended_witness :
    (evalRules c2rules ⟨["other"]⟩ "other" = some "other") ∧
    ((["a.dat"], "second.out") ∈ dirTasks c2rules [] [FsNode.file "a.dat"] →
      evalRules c2rules ⟨["a.dat"]⟩ "a.dat" = some "second.out") := by
  constructor
  · exact claim_C2_amended.2.2.1 c2rules ⟨["other"]⟩ "other" (by decide)
  · intro hmem
    have h := (claim_C2_amended.2.2.2 c2rules [FsNode.file "a.dat"] [] _ hmem).2.1
    simpa using h

/-- Counterexample for C2 as stated: both rules of c2rules are rename
rules matching the path a.dat; under the claim only the first match of
the Rename rule type would be applied, giving first.out, but the code
applies every matching rename in order and produces second.out. -/
theorem claim_C2_counterexample :
    dirTasks c2rules [] [FsNode.file "a.dat"] = [(["a.dat"], "second.out")] ∧
    evalRules c2rules ⟨["a.dat"]⟩ "a.dat" = some "second.out" ∧
    evalRulesFirstMatch c2rules ⟨["a.dat"]⟩ "a.dat" = some "first.out" ∧
    evalRules c2rules ⟨["a.dat"]⟩ "a.dat"
      ≠ evalRulesFirstMatch c2rules ⟨["a.dat"]⟩ "a.dat" := by
  refine ⟨?_, ?_, ?_, ?_⟩
  · rw [dirTasks]
    simp [sortNodes, List.mergeSort, evalRules, c2rules, RenameRule,
      FsNode.name, FsNode.isDir]
  · simp [c2rules, evalRules, RenameRule]
  · simp [c2rules, evalRulesFirstMatch, RenameRule, List.find?]
  · simp [c2rules, evalRules, evalRulesFirstMatch, RenameRule, List.find?]

/-! ## Claim C5: index sortedness and name uniqueness -/

theorem insortPoint_le_length (l : List String) (x : String) :
    insortPoint l x ≤ l.length := by
  rw [insortPoint]
  exact (List.takeWhile_sublist _).length_le

theorem insortPoint_cons_lt (a : String) (tl : List String) (x : String)
    (h : a < x) : insortPoint (a :: tl) x = insortPoint tl x + 1 := by
  simp only [insortPoint, List.takeWhile_cons, decide_eq_true_eq, h, if_pos,
    List.length_cons]

theorem insortPoint_cons_ge (a : String) (tl : List String) (x : String)
    (h : ¬ a < x) : insortPoint (a :: tl) x = 0 := by
  rw [insortPoint, List.takeWhile_cons, if_neg (by simpa using h)]
  rfl

theorem bisectInsortDir_cons_lt (a : String) (tl : List String) (x : String)
    (h : a < x) : bisectInsortDir (a :: tl) x = a :: bisectInsortDir tl x := by
  simp only [bisectInsortDir, insortPoint_cons_lt a tl x h, List.length_cons,
    Nat.add_right_cancel_iff, List.getD_cons_succ, List.take_succ_cons,
    List.drop_succ_cons]
  by_cases h1 : insortPoint tl x = tl.length
  · rw [if_pos h1, if_pos h1]
    simp
  · rw [if_neg h1, if_neg h1]
    by_cases h2 : tl.getD (insortPoint tl x) "" ≠ x
    · rw [if_pos h2, if_pos h2]
      simp
    · rw [if_neg h2, if_neg h2]

theorem bisectInsortDir_cons_ge (a : String) (tl : List String) (x : String)
    (h : ¬ a < x) :
    bisectInsortDir (a :: tl) x = if a = x then a :: tl else x :: a :: tl := by
  simp only [bisectInsortDir, insortPoint_cons_ge a tl x h]
  rw [if_neg (by simp)]
  simp only [List.getD_cons_zero, List.take_zero, List.drop_zero]
  by_cases h2 : a = x
  · rw [if_neg (by simp [h2]), if_pos h2]
  · rw [if_pos (by simp [h2]), if_neg h2]
    simp

theorem set_getD_eq (l : List String) (i : Nat) (x : String)
    (hi : i < l.length) (hx : l.getD i "" = x) : l.set i x = l := by
  induction l generalizing i with
  | nil => simp at hi
  | cons a tl ih =>
    cases i with
    | zero =>
      simp only [List.getD_cons_zero] at hx
      rw [hx.symm]
      rfl
    | succ n =>
      simp only [List.getD_cons_succ] at hx
      simp only [List.length_cons, Nat.add_lt_add_iff_right] at hi
      rw [List.set_cons_succ, ih n hi hx]

theorem bisectInsortFile_eq_dir (l : List String) (x : String) :
    bisectInsortFile l x = bisectInsortDir l x := by
  simp only [bisectInsortFile, bisectInsortDir]
  by_cases h1 : insortPoint l x = l.length
  · rw [if_pos h1, if_pos h1]
  · rw [if_neg h1, if_neg h1]
    by_cases h2 : l.getD (insortPoint l x) "" = x
    · rw [if_pos h2, if_neg (fun hne => hne h2)]
      exact set_getD_eq l _ x
        (by have := insortPoint_le_length l x; omega) h2
    · rw [if_neg h2, if_pos h2]

theorem mem_bisectInsortDir (l : List String) (x b : String) :
    b ∈ bisectInsortDir l x ↔ b = x ∨ b ∈ l := by
  induction l with
  | nil => simp [bisectInsortDir, insortPoint]
  | cons a tl ih =>
    by_cases hlt : a < x
    · rw [bisectInsortDir_cons_lt a tl x hlt]
      simp only [List.mem_cons, ih]
      tauto
    · rw [bisectInsortDir_cons_ge a tl x hlt]
      by_cases h2 : a = x
      · rw [if_pos h2]
        subst h2
        simp only [List.mem_cons]
        tauto
      · rw [if_neg h2]
        simp only [List.mem_cons]

theorem sorted_bisectInsortDir (l : List String) (x : String)
    (hs : l.Sorted (· ≤ ·)) : (bisectInsortDir l x).Sorted (· ≤ ·) := by
  induction l with
  | nil => simp [bisectInsortDir, insortPoint]
  | cons a tl ih =>
    rw [List.sorted_cons] at hs
    obtain ⟨ha, htl⟩ := hs
    by_cases hlt : a < x
    · rw [bisectInsortDir_cons_lt a tl x hlt, List.sorted_cons]
      constructor
      · intro b hb
        rw [mem_bisectInsortDir] at hb
        cases hb with
        | inl h => exact h ▸ le_of_lt hlt
        | inr h => exact ha b h
      · exact ih htl
    · rw [bisectInsortDir_cons_ge a tl x hlt]
      by_cases h2 : a = x
      · rw [if_pos h2]
        exact List.sorted_cons.mpr ⟨ha, htl⟩
      · rw [if_neg h2, List.sorted_cons]
        refine ⟨?_, List.sorted_cons.mpr ⟨ha, htl⟩⟩
        intro b hb
        have hxa : x ≤ a := le_of_not_lt hlt
        cases List.mem_cons.mp hb with
        | inl h => exact h ▸ hxa
        | inr h => exact le_trans hxa (ha b h)

theorem nodup_bisectInsortDir (l : List String) (x : String)
    (hn : l.Nodup) (hx : x ∉ l) : (bisectInsortDir l x).Nodup := by
  induction l with
  | nil => simp [bisectInsortDir, insortPoint]
  | cons a tl ih =>
    rw [List.nodup_cons] at hn
    obtain ⟨hna, hntl⟩ := hn
    have hxtl : x ∉ tl := fun h => hx (List.mem_cons_of_mem a h)
    have hxa : ¬ a = x := fun h => hx (h ▸ List.mem_cons_self a tl)
    by_cases hlt : a < x
    · rw [bisectInsortDir_cons_lt a tl x hlt, List.nodup_cons]
      refine ⟨?_, ih hntl hxtl⟩
      intro hmem
      rw [mem_bisectInsortDir] at hmem
      cases hmem with
      | inl h => exact hxa h
      | inr h => exact hna h
    · rw [bisectInsortDir_cons_ge a tl x hlt, if_neg hxa, List.nodup_cons,
        List.nodup_cons]
      exact ⟨fun h => hx h, hna, hntl⟩

/-- Everything recorded in the three lists was added in this process. -/
def namesCovered (s : IndexState) : Prop :=
  ∀ b ∈ allNames s, b ∈ s.added_names

theorem applyOp_ok_shape (s : IndexState) (op : DirOp) (s1 : IndexState)
    (hok : applyOp s op = Except.ok s1) :
    op.name ∉ s.added_names ∧ s1.added_names = s.added_names ++ [op.name] ∧
    ((s1.directories = bisectInsortDir s.directories op.name ∧
        s1.files = s.files ∧ s1.other_files = s.other_files) ∨
     (s1.files = bisectInsortDir s.files op.name ∧
        s1.directories = s.directories ∧ s1.other_files = s.other_files) ∨
     (s1.other_files = bisectInsortDir s.other_files op.name ∧
        s1.directories = s.directories ∧ s1.files = s.files)) := by
  cases op with
  | subdir nm =>
    rw [applyOp, createSubdirectory] at hok
    by_cases hmem : nm ∈ s.added_names
    · rw [if_pos hmem] at hok
      cases hok
    · rw [if_neg hmem] at hok
      obtain rfl : _ = s1 := Except.ok.inj hok
      exact ⟨hmem, rfl, Or.inl ⟨rfl, rfl, rfl⟩⟩
  | closeFileOp k nm =>
    rw [applyOp, updateIndex.eq_def] at hok
    by_cases hmem : nm ∈ s.added_names
    · rw [if_pos hmem] at hok
      cases hok
    · rw [if_neg hmem] at hok
      cases k with
      | file =>
        obtain rfl : _ = s1 := Except.ok.inj hok
        exact ⟨hmem, rfl, Or.inr (Or.inl
          ⟨bisectInsortFile_eq_dir s.files nm, rfl, rfl⟩)⟩
      | otherFile =>
        obtain rfl : _ = s1 := Except.ok.inj hok
        exact ⟨hmem, rfl, Or.inr (Or.inr
          ⟨bisectInsortFile_eq_dir s.other_files nm, rfl, rfl⟩)⟩

theorem applyOp_sortedState (s : IndexState) (op : DirOp) (s1 : IndexState)
    (hok : applyOp s op = Except.ok s1) (hs : sortedState s) : sortedState s1 := by
  obtain ⟨-, -, hshape⟩ := applyOp_ok_shape s op s1 hok
  obtain ⟨h1, h2, h3⟩ := hs
  rcases hshape with ⟨ha, hb, hc⟩ | ⟨ha, hb, hc⟩ | ⟨ha, hb, hc⟩
  · exact ⟨ha ▸ sorted_bisectInsortDir _ _ h1, hb ▸ h2, hc ▸ h3⟩
  · exact ⟨hb ▸ h1, ha ▸ sorted_bisectInsortDir _ _ h2, hc ▸ h3⟩
  · exact ⟨hb ▸ h1, hc ▸ h2, ha ▸ sorted_bisectInsortDir _ _ h3⟩

theorem nodup_append3_insert (A B C : List String) (x : String)
    (hn : (A ++ B ++ C).Nodup) (hx : x ∉ A ∧ x ∉ B ∧ x ∉ C) :
    ((bisectInsortDir A x) ++ B ++ C).Nodup ∧
    (A ++ (bisectInsortDir B x) ++ C).Nodup ∧
    (A ++ B ++ (bisectInsortDir C x)).Nodup := by
  rw [List.append_assoc, List.nodup_append] at hn
  obtain ⟨hA, hBC, hdisjA⟩ := hn
  rw [List.nodup_append] at hBC
  obtain ⟨hB, hC, hdisjBC⟩ := hBC
  obtain ⟨hxA, hxB, hxC⟩ := hx
  refine ⟨?_, ?_, ?_⟩
  · rw [List.append_assoc, List.nodup_append]
    refine ⟨nodup_bisectInsortDir A x hA hxA, ?_, ?_⟩
    · rw [List.nodup_append]
      exact ⟨hB, hC, hdisjBC⟩
    · intro b hb
      rw [mem_bisectInsortDir] at hb
      cases hb with
      | inl h =>
        subst h
        simp only [List.mem_append]
        rintro (h | h)
        · exact hxB h
        · exact hxC h
      | inr h => exact hdisjA h
  · rw [List.append_assoc, List.nodup_append]
    refine ⟨hA, ?_, ?_⟩
    · rw [List.nodup_append]
      refine ⟨nodup_bisectInsortDir B x hB hxB, hC, ?_⟩
      intro b hb
      rw [mem_bisectInsortDir] at hb
      cases hb with
      | inl h => exact h ▸ hxC
      | inr h => exact hdisjBC h
    · intro b hb
      simp only [List.mem_append, mem_bisectInsortDir]
      rintro (h | h)
      · cases h with
        | inl h2 => exact hxA (h2 ▸ hb)
        | inr h2 => exact (hdisjA hb) (by simp [h2])
      · exact (hdisjA hb) (by simp [h])
  · rw [List.append_assoc, List.nodup_append]
    refine ⟨hA, ?_, ?_⟩
    · rw [List.nodup_append]
      refine ⟨hB, nodup_bisectInsortDir C x hC hxC, ?_⟩
      intro b hb
      rw [mem_bisectInsortDir]
      rintro (h | h)
      · exact hxB (h ▸ hb)
      · exact (hdisjBC hb) h
    · intro b hb
      simp only [List.mem_append, mem_bisectInsortDir]
      rintro (h | h)
      · exact (hdisjA hb) (by simp [h])
      · cases h with
        | inl h2 => exact hxA (h2 ▸ hb)
        | inr h2 => exact (hdisjA hb) (by simp [h2])

theorem applyOp_extInv (s : IndexState) (op : DirOp) (s1 : IndexState)
    (hok : applyOp s op = Except.ok s1) (h : indexInv s ∧ namesCovered s) :
    indexInv s1 ∧ namesCovered s1 := by
  obtain ⟨⟨hsorted, hnodup⟩, hcov⟩ := h
  obtain ⟨hnotadded, hadded, hshape⟩ := applyOp_ok_shape s op s1 hok
  have hfresh : op.name ∉ s.directories ∧ op.name ∉ s.files ∧
      op.name ∉ s.other_files := by
    refine ⟨?_, ?_, ?_⟩ <;> intro hmem <;> apply hnotadded <;> apply hcov <;>
      simp [allNames, hmem]
  have hnd := nodup_append3_insert s.directories s.files s.other_files op.name
    hnodup hfresh
  constructor
  · constructor
    · exact applyOp_sortedState s op s1 hok hsorted
    · rcases hshape with ⟨ha, hb, hc⟩ | ⟨ha, hb, hc⟩ | ⟨ha, hb, hc⟩
      · rw [noDupNames, allNames, ha, hb, hc]
        exact hnd.1
      · rw [noDupNames, allNames, ha, hb, hc]
        exact hnd.2.1
      · rw [noDupNames, allNames, ha, hb, hc]
        exact hnd.2.2
  · intro b hb
    rw [hadded]
    rcases hshape with ⟨ha, hb2, hc⟩ | ⟨ha, hb2, hc⟩ | ⟨ha, hb2, hc⟩ <;>
      rw [allNames, ha, hb2, hc] at hb <;>
      simp only [List.mem_append, mem_bisectInsortDir] at hb <;>
      simp only [List.mem_append, List.mem_singleton] <;>
      rcases hb with (h | h) | h
    · cases h with
      | inl h2 => exact Or.inr h2
      | inr h2 => exact Or.inl (hcov b (by simp [allNames, h2]))
    · exact Or.inl (hcov b (by simp [allNames, h]))
    · exact Or.inl (hcov b (by simp [allNames, h]))
    · exact Or.inl (hcov b (by simp [allNames, h]))
    · cases h with
      | inl h2 => exact Or.inr h2
      | inr h2 => exact Or.inl (hcov b (by simp [allNames, h2]))
    · exact Or.inl (hcov b (by simp [allNames, h]))
    · exact Or.inl (hcov b (by simp [allNames, h]))
    · exact Or.inl (hcov b (by simp [allNames, h]))
    · cases h with
      | inl h2 => exact Or.inr h2
      | inr h2 => exact Or.inl (hcov b (by simp [allNames, h2]))

theorem runOps_sortedState (ops : List DirOp) :
    ∀ s s1, sortedState s → runOps s ops = Except.ok s1 → sortedState s1 := by
  induction ops with
  | nil =>
    intro s s1 hs hok
    rw [runOps] at hok
    obtain rfl : _ = s1 := Except.ok.inj hok
    exact hs
  | cons op rest ih =>
    intro s s1 hs hok
    rw [runOps] at hok
    cases happ : applyOp s op with
    | error e => rw [happ] at hok; cases hok
    | ok smid =>
      rw [happ] at hok
      exact ih smid s1 (applyOp_sortedState s op smid happ hs) hok

theorem runOps_extInv (ops : List DirOp) :
    ∀ s s1, indexInv s ∧ namesCovered s → runOps s ops = Except.ok s1 →
      indexInv s1 ∧ namesCovered s1 := by
  induction ops with
  | nil =>
    intro s s1 hs hok
    rw [runOps] at hok
    obtain rfl : _ = s1 := Except.ok.inj hok
    exact hs
  | cons op rest ih =>
    intro s s1 hs hok
    rw [runOps] at hok
    cases happ : applyOp s op with
    | error e => rw [happ] at hok; cases hok
    | ok smid =>
      rw [happ] at hok
      exact ih smid s1 (applyOp_extInv s op smid happ hs) hok

theorem runOps_added_mono (ops : List DirOp) :
    ∀ s s1, runOps s ops = Except.ok s1 →
      ∀ b ∈ s.added_names, b ∈ s1.added_names := by
  induction ops with
  | nil =>
    intro s s1 hok
    rw [runOps] at hok
    obtain rfl : _ = s1 := Except.ok.inj hok
    exact fun b hb => hb
  | cons op rest ih =>
    intro s s1 hok b hb
    rw [runOps] at hok
    cases happ : applyOp s op with
    | error e => rw [happ] at hok; cases hok
    | ok smid =>
      rw [happ] at hok
      have hmid := (applyOp_ok_shape s op smid happ).2.1
      exact ih smid s1 hok b (by rw [hmid]; simp [hb])

theorem applyOp_error_of_mem (s : IndexState) (op : DirOp)
    (h : op.name ∈ s.added_names) : applyOp s op = Except.error op.name := by
  cases op with
  | subdir nm =>
    rw [applyOp, createSubdirectory,
      if_pos (show nm ∈ s.added_names from h)]
    rfl
  | closeFileOp k nm =>
    rw [applyOp, updateIndex.eq_def,
      if_pos (show nm ∈ s.added_names from h)]
    rfl

/-- C5 as amended: the three index lists stay sorted by name after any
successful sequence of create_file (closed) / create_subdirectory
calls, from any validated initial state; no name is repeated across the
three lists provided every name that collides across kinds was added in
this process (in particular for a Directory starting from the default
empty index); and adding the same name twice within one process
lifetime fails with the duplicate-add error.  The unqualified no-repeat
invariant of the claim is refuted by claim_C5_counterexample: a name
loaded from a prior manifest into one list can be re-added to a
different list. -/
theorem claim_C5_amended :
    (∀ s ops s1, sortedState s → runOps s ops = Except.ok s1 → sortedState s1) ∧
    (∀ ops s1, runOps emptyIndexState ops = Except.ok s1 → indexInv s1) ∧
    (∀ s op1 s1 ops s2 op2, applyOp s op1 = Except.ok s1 →
      runOps s1 ops = Except.ok s2 → op2.name = op1.name →
      applyOp s2 op2 = Except.error op2.name) := by
  refine ⟨?_, ?_, ?_⟩
  · intro s ops s1 hs hok
    exact runOps_sortedState ops s s1 hs hok
  · intro ops s1 hok
    have hinit : indexInv emptyIndexState ∧ namesCovered emptyIndexState := by
      constructor
      · exact ⟨⟨by simp [emptyIndexState], by simp [emptyIndexState],
          by simp [emptyIndexState]⟩, by simp [noDupNames, allNames, emptyIndexState]⟩
      · intro b hb
        simp [allNames, emptyIndexState] at hb
    exact (runOps_extInv ops emptyIndexState s1 hinit hok).1
  · intro s op1 s1 ops s2 op2 hap hrun hname
    have h1 : op1.name ∈ s1.added_names := by
      rw [(applyOp_ok_shape s op1 s1 hap).2.1]
      simp
    have h2 : op1.name ∈ s2.added_names := runOps_added_mono ops s1 s2 hrun _ h1
    rw [← hname] at h2
    exact applyOp_error_of_mem s2 op2 h2

/-- Witness for claim_C5_amended on a concrete run from the empty
index. -/
theorem claim_C5_amended_witness :
    sortedState { directories := ["a"], files := ["b"], other_files := [], added_names := ["b", "a"] } ∧
    indexInv { directories := ["a"], files := ["b"], other_files := [], added_names := ["b", "a"] } ∧
    applyOp { directories := ["a"], files := ["b"], other_files := [], added_names := ["b", "a"] } (DirOp.subdir "b") = Except.error "b" := by
  have hrun : runOps emptyIndexState
      [DirOp.closeFileOp FileKind.file "b", DirOp.subdir "a"] =
      Except.ok { directories := ["a"], files := ["b"], other_files := [], added_names := ["b", "a"] } := by decide
  have hap : applyOp emptyIndexState (DirOp.closeFileOp FileKind.file "b") =
      Except.ok { directories := [], files := ["b"], other_files := [], added_names := ["b"] } := by decide
  have hrun2 : runOps { directories := [], files := ["b"], other_files := [], added_names := ["b"] } [DirOp.subdir "a"] =
      Except.ok { directories := ["a"], files := ["b"], other_files := [], added_names := ["b", "a"] } := by decide
  refine ⟨?_, ?_, ?_⟩
  · exact claim_C5_amended.1 emptyIndexState _ _
      ⟨by simp [emptyIndexState], by simp [emptyIndexState], by simp [emptyIndexState]⟩
      hrun
  · exact claim_C5_amended.2.1 _ _ hrun
  · exact claim_C5_amended.2.2 _ _ _ _ _ (DirOp.subdir "b") hap hrun2 rfl

/-- Counterexample for C5 as stated: a Directory whose loaded manifest
already lists a file named a (a valid initial state: all lists sorted,
no repeated name, nothing added yet) accepts create_subdirectory("a"),
after which the name a appears in both directories and files. -/
theorem claim_C5_counterexample :
    indexInv c5loaded ∧ c5loaded.added_names = [] ∧
    runOps c5loaded [DirOp.subdir "a"] = Except.ok
      { directories := ["a"], files := ["a"], other_files := [], added_names := ["a"] } ∧
    ¬ noDupNames { directories := ["a"], files := ["a"], other_files := [], added_names := ["a"] } := by
  refine ⟨⟨⟨?_, ?_, ?_⟩, ?_⟩, rfl, ?_, ?_⟩
  · simp [c5loaded]
  · simp [c5loaded]
  · simp [c5loaded]
  · simp [noDupNames, allNames, c5loaded]
  · decide
  · simp [noDupNames, allNames]

/-! ## Claim C1: IMU grouping -/

theorem sorted_min_count_getD (v : Nat) :
    ∀ l : List Nat, l.Pairwise (· ≤ ·) → (∀ y ∈ l, v ≤ y) →
      ∀ k, k < l.count v → l.get? k = some v := by
  intro l
  induction l with
  | nil => intro _ _ k hk; simp at hk
  | cons a tl ih =>
    intro hp hmin k hk
    rw [List.pairwise_cons] at hp
    obtain ⟨hale, htl⟩ := hp
    by_cases hav : a = v
    · subst hav
      cases k with
      | zero => rfl
      | succ k2 =>
        rw [List.get?_cons_succ]
        apply ih htl (fun y hy => hale y hy) k2
        rw [List.count_cons, if_pos (by simp)] at hk
        omega
    · exfalso
      have hvta : v ≤ a := hmin a (List.mem_cons_self a tl)
      have hcnt : tl.count v = 0 := by
        by_contra hc
        have hvtl : v ∈ tl := List.count_pos_iff.mp (by omega)
        exact hav (le_antisymm (hale v hvtl) hvta)
      rw [List.count_cons, hcnt, if_neg (by simp [hav])] at hk
      omega

theorem sorted_count_getD (v : Nat) :
    ∀ l : List Nat, l.Pairwise (· ≤ ·) →
      ∀ k, k < l.count v →
        l.get? (l.findIdx (fun x => x == v) + k) = some v := by
  intro l
  induction l with
  | nil => intro _ k hk; simp at hk
  | cons a tl ih =>
    intro hp k hk
    have hp2 := hp
    rw [List.pairwise_cons] at hp2
    obtain ⟨hale, htl⟩ := hp2
    by_cases hav : a = v
    · subst hav
      rw [List.findIdx_cons]
      simp only [beq_self_eq_true, cond_true, Nat.zero_add]
      exact sorted_min_count_getD a (a :: tl) hp
        (by
          intro y hy
          cases List.mem_cons.mp hy with
          | inl h => exact h ▸ le_refl a
          | inr h => exact hale y h) k hk
    · rw [List.findIdx_cons]
      have hba : (a == v) = false := by simp [hav]
      simp only [hba, cond_false]
      have hidx : tl.findIdx (fun x => x == v) + 1 + k
          = (tl.findIdx (fun x => x == v) + k) + 1 := by omega
      rw [hidx, List.get?_cons_succ]
      apply ih htl k
      rw [List.count_cons, if_neg (by simp [hav])] at hk
      omega

theorem records2_chain (data : List Nat) :
    List.Chain' (fun a b : Rec2 => a.t ≤ b.t) (records2 data) := by
  rw [records2]
  cases hh : readAerdatHeader data with
  | error e => simp
  | ok pair => exact sortRecords_chain _

theorem records2_imu_ts_pairwise (data : List Nat) :
    (((records2 data).filter imuMask).map Rec2.t).Pairwise (· ≤ ·) := by
  haveI : IsTrans Rec2 (fun a b => a.t ≤ b.t) :=
    ⟨fun a b c hab hbc => le_trans hab hbc⟩
  have h2 : (records2 data).Pairwise (fun a b => a.t ≤ b.t) :=
    List.chain'_iff_pairwise.mp (records2_chain data)
  exact List.Pairwise.map Rec2.t (fun a b h => h) (h2.filter imuMask)

theorem mem_uniqueVals (ts : List Nat) (v : Nat) :
    v ∈ uniqueVals ts ↔ v ∈ ts := by
  rw [uniqueVals, List.mem_insertionSort, List.mem_dedup]

theorem zip_map_self {α β : Type} (f : α → β) (l : List α) :
    l.zip (l.map f) = l.map (fun a => (a, f a)) := by
  induction l with
  | nil => rfl
  | cons a tl ih => simp [ih]

/-- Unfolding of the IMU stage when the imu-record list and the
count-seven timestamp list are both non-empty: the result is governed by
the slot-order tag check. -/
theorem imuStage_spec (rs : List Rec2) (imu_data : List Rec2) (ts sevenTs : List Nat)
    (hid : imu_data = rs.filter imuMask)
    (hts : ts = imu_data.map Rec2.t)
    (hseven : sevenTs = (uniqueVals ts).filter (fun v => ts.count v == 7))
    (him : 0 < imu_data.length) (hsl : 0 < sevenTs.length) :
    imuStage rs =
      if (List.range 7).all (fun offset =>
          (sevenTs.map (fun v => ts.findIdx (fun x => x == v))).all
            (fun b => (imu_data.map imuTypeTag).getD (b + offset) 8 == offset)) then
        (some ((sevenTs.zip (sevenTs.map (fun v => ts.findIdx (fun x => x == v)))).map
          (fun q =>
            { t := q.1
              accelerometer_x := (imu_data.map imuSampleVal).getD q.2 0
              accelerometer_y := (imu_data.map imuSampleVal).getD (q.2 + 1) 0
              accelerometer_z := (imu_data.map imuSampleVal).getD (q.2 + 2) 0
              temperature := (imu_data.map imuSampleVal).getD (q.2 + 3) 0
              gyroscope_x := (imu_data.map imuSampleVal).getD (q.2 + 4) 0
              gyroscope_y := (imu_data.map imuSampleVal).getD (q.2 + 5) 0
              gyroscope_z := (imu_data.map imuSampleVal).getD (q.2 + 6) 0 })), false)
      else (none, true) := by
  subst hseven
  subst hts
  subst hid
  simp only [imuStage]
  rw [if_pos him, if_pos hsl]

/-- C1 (amended): in a successful gen-2 decode, the IMU records are
grouped by timestamp; a timestamp with exactly 7 IMU records forms a
candidate group occupying 7 consecutive positions starting at its first
occurrence (part 1).  The stream yields an IMU array — one sample per
candidate group, slots accel x/y/z, temperature, gyro x/y/z taken from
the group's consecutive records — exactly when every candidate group
carries the type tags in the fixed slot order 0,1,...,6 (part 2); if any
candidate group has any slot whose tag differs from its slot index —
including groups whose tags are a non-identity permutation of 0..6 and
groups with only 6 distinct tags — then imu_corrupted is set and no IMU
array is produced for the whole stream (part 3, fail-together). -/
theorem claim_C1_amended (data : List Nat) (r : Aerdat2)
    (imu_data : List Rec2) (ts sevenTs : List Nat)
    (hdec : readAerdat2 data = Except.ok r)
    (hid : imu_data = (records2 data).filter imuMask)
    (hts : ts = imu_data.map Rec2.t)
    (hseven : sevenTs = (uniqueVals ts).filter (fun v => ts.count v == 7)) :
    (∀ v ∈ sevenTs, ∀ k, k < 7 →
      ∃ rec, imu_data.get? (ts.findIdx (fun x => x == v) + k) = some rec ∧
        rec.t = v) ∧
    ((sevenTs ≠ [] ∧ ∀ v ∈ sevenTs, ∀ k, k < 7 →
        (imu_data.map imuTypeTag).getD (ts.findIdx (fun x => x == v) + k) 8 = k) →
      r.imu_corrupted = false ∧
      ∃ l, r.imu = some l ∧ l.length = sevenTs.length ∧
        ∀ i v, sevenTs.get? i = some v →
          l.get? i = some
            { t := v
              accelerometer_x := (imu_data.map imuSampleVal).getD
                (ts.findIdx (fun x => x == v)) 0
              accelerometer_y := (imu_data.map imuSampleVal).getD
                (ts.findIdx (fun x => x == v) + 1) 0
              accelerometer_z := (imu_data.map imuSampleVal).getD
                (ts.findIdx (fun x => x == v) + 2) 0
              temperature := (imu_data.map imuSampleVal).getD
                (ts.findIdx (fun x => x == v) + 3) 0
              gyroscope_x := (imu_data.map imuSampleVal).getD
                (ts.findIdx (fun x => x == v) + 4) 0
              gyroscope_y := (imu_data.map imuSampleVal).getD
                (ts.findIdx (fun x => x == v) + 5) 0
              gyroscope_z := (imu_data.map imuSampleVal).getD
                (ts.findIdx (fun x => x == v) + 6) 0 }) ∧
    ((∃ v ∈ sevenTs, ∃ k, k < 7 ∧
        (imu_data.map imuTypeTag).getD (ts.findIdx (fun x => x == v) + k) 8 ≠ k) →
      r.imu_corrupted = true ∧ r.imu = none) := by
  subst hseven
  subst hts
  subst hid
  cases hh : readAerdatHeader data with
  | error e =>
    rw [readAerdat2.eq_def, hh] at hdec
    exact absurd hdec (by simp)
  | ok pair =>
    obtain ⟨hd, rest⟩ := pair
    have hrec : records2 data = sortRecords (parseRecords8 rest) := by
      simp only [records2, hh]
    simp only [readAerdat2, hh] at hdec
    rw [Except.ok.injEq] at hdec
    subst hdec
    rw [hrec]
    set rs := sortRecords (parseRecords8 rest) with hrsdef
    set im := rs.filter imuMask with himdef
    set ts := im.map Rec2.t with htsdef
    set sts := (uniqueVals ts).filter (fun v => ts.count v == 7) with hstsdef
    have hpw : ts.Pairwise (· ≤ ·) := by
      rw [htsdef, himdef]
      haveI : IsTrans Rec2 (fun a b => a.t ≤ b.t) :=
        ⟨fun a b c hab hbc => le_trans hab hbc⟩
      exact List.Pairwise.map Rec2.t (fun a b h => h)
        ((List.chain'_iff_pairwise.mp (sortRecords_chain _)).filter imuMask)
    refine ⟨?_, ?_, ?_⟩
    · intro v hv k hk
      have hcnt : ts.count v = 7 := by
        have h2 := (List.mem_filter.mp hv).2
        rwa [beq_iff_eq] at h2
      have hget := sorted_count_getD v ts hpw k (by rw [hcnt]; exact hk)
      rw [htsdef, List.get?_map] at hget
      obtain ⟨rec, hr1, hr2⟩ := Option.map_eq_some'.mp hget
      refine ⟨rec, ?_, hr2⟩
      rw [← htsdef] at hr1
      exact hr1
    · rintro ⟨hne, hall⟩
      obtain ⟨v0, hv0⟩ := List.exists_mem_of_ne_nil _ hne
      have hv0t : v0 ∈ ts := (mem_uniqueVals _ _).mp (List.mem_filter.mp hv0).1
      have him : 0 < im.length := by
        have h1 : 0 < ts.length := List.length_pos.mpr (List.ne_nil_of_mem hv0t)
        rw [htsdef, List.length_map] at h1
        exact h1
      have hsl : 0 < sts.length := List.length_pos.mpr hne
      have hvt : ((List.range 7).all (fun offset =>
          (sts.map (fun v => ts.findIdx (fun x => x == v))).all
            (fun b => (im.map imuTypeTag).getD (b + offset) 8 == offset))) = true := by
        rw [List.all_eq_true]
        intro off hoff
        rw [List.all_eq_true]
        intro b hb
        obtain ⟨v, hvs, rfl⟩ := List.mem_map.mp hb
        simp only [beq_iff_eq]
        exact hall v hvs off (List.mem_range.mp hoff)
      have hstage := imuStage_spec rs im ts sts himdef htsdef hstsdef him hsl
      rw [if_pos hvt] at hstage
      refine ⟨?_, ?_⟩
      · show (imuStage rs).2 = false
        rw [hstage]
      · refine ⟨(sts.zip (sts.map (fun v => ts.findIdx (fun x => x == v)))).map
            (fun q =>
              { t := q.1
                accelerometer_x := (im.map imuSampleVal).getD q.2 0
                accelerometer_y := (im.map imuSampleVal).getD (q.2 + 1) 0
                accelerometer_z := (im.map imuSampleVal).getD (q.2 + 2) 0
                temperature := (im.map imuSampleVal).getD (q.2 + 3) 0
                gyroscope_x := (im.map imuSampleVal).getD (q.2 + 4) 0
                gyroscope_y := (im.map imuSampleVal).getD (q.2 + 5) 0
                gyroscope_z := (im.map imuSampleVal).getD (q.2 + 6) 0 }), ?_, ?_, ?_⟩
        · show (imuStage rs).1 = some _
          rw [hstage]
        · rw [zip_map_self, List.length_map, List.length_map]
        · intro i v hiv
          rw [zip_map_self, List.get?_map, List.get?_map, hiv]
          rfl
    · rintro ⟨v, hv, k, hk7, hneq⟩
      have hvt0 : v ∈ ts := (mem_uniqueVals _ _).mp (List.mem_filter.mp hv).1
      have him : 0 < im.length := by
        have h1 : 0 < ts.length := List.length_pos.mpr (List.ne_nil_of_mem hvt0)
        rw [htsdef, List.length_map] at h1
        exact h1
      have hsl : 0 < sts.length := List.length_pos.mpr (List.ne_nil_of_mem hv)
      have hnt : ¬ (((List.range 7).all (fun offset =>
          (sts.map (fun v => ts.findIdx (fun x => x == v))).all
            (fun b => (im.map imuTypeTag).getD (b + offset) 8 == offset))) = true) := by
        intro hc
        rw [List.all_eq_true] at hc
        have h1 := hc k (List.mem_range.mpr hk7)
        rw [List.all_eq_true] at h1
        have h2 := h1 _ (List.mem_map.mpr ⟨v, hv, rfl⟩)
        simp only [beq_iff_eq] at h2
        exact hneq h2
      have hstage := imuStage_spec rs im ts sts himdef htsdef hstsdef him hsl
      rw [if_neg hnt] at hstage
      refine ⟨?_, ?_⟩
      · show (imuStage rs).2 = true
        rw [hstage]
      · show (imuStage rs).1 = none
        rw [hstage]

/-- C1 witness: the stream c1ok (seven IMU records at timestamp 1 with
tags in slot order 0..6) decodes with imu_corrupted = false and a
one-sample IMU array whose fields are all zero. -/
theorem claim_C1_amended_witness :
    ∃ r, readAerdat2 c1ok = Except.ok r ∧ r.imu_corrupted = false ∧
      ∃ l, r.imu = some l ∧ l.length = 1 ∧
        l.get? 0 = some
          { t := 1, accelerometer_x := 0, accelerometer_y := 0, accelerometer_z := 0,
            temperature := 0, gyroscope_x := 0, gyroscope_y := 0, gyroscope_z := 0 } := by
  have hh : readAerdatHeader c1ok = Except.ok ([], c1ok) :=
    readAerdatHeader_cons_ne 128
      [0, 12, 0, 0, 0, 0, 1, 144, 0, 12, 0, 0, 0, 0, 1, 160, 0, 12, 0, 0, 0, 0, 1,
       176, 0, 12, 0, 0, 0, 0, 1, 192, 0, 12, 0, 0, 0, 0, 1, 208, 0, 12, 0, 0, 0, 0, 1,
       224, 0, 12, 0, 0, 0, 0, 1] (by decide)
  have hrec : records2 c1ok = sortRecords (parseRecords8 c1ok) := by
    simp only [records2, hh]
  have hex : ∃ r, readAerdat2 c1ok = Except.ok r := by
    simp only [readAerdat2, hh]
    exact ⟨_, rfl⟩
  obtain ⟨r, hdec⟩ := hex
  have H := claim_C1_amended c1ok r
    [{ d0 := 128, d1 := 0, d2 := 12, d3 := 0, t := 1 },
     { d0 := 144, d1 := 0, d2 := 12, d3 := 0, t := 1 },
     { d0 := 160, d1 := 0, d2 := 12, d3 := 0, t := 1 },
     { d0 := 176, d1 := 0, d2 := 12, d3 := 0, t := 1 },
     { d0 := 192, d1 := 0, d2 := 12, d3 := 0, t := 1 },
     { d0 := 208, d1 := 0, d2 := 12, d3 := 0, t := 1 },
     { d0 := 224, d1 := 0, d2 := 12, d3 := 0, t := 1 }]
    [1, 1, 1, 1, 1, 1, 1] [1] hdec (by rw [hrec]; decide) (by decide) (by decide)
  obtain ⟨_, h2, _⟩ := H
  obtain ⟨hc, l, hl, hlen, hper⟩ := h2 (by decide)
  refine ⟨r, hdec, hc, l, hl, hlen, ?_⟩
  have h0 := hper 0 1 (by decide)
  rw [h0]
  decide

/-- C1 counterexample: the stream c1data carries seven IMU records
sharing timestamp 1 whose type tags 1,0,2,3,4,5,6 are a permutation
covering 0..6 exactly once, yet the decoder produces no IMU array and
sets imu_corrupted, contradicting the claim that any such permuted group
yields one IMU sample. -/
theorem claim_C1_counterexample :
    ((records2 c1data).filter imuMask).map imuTypeTag = [1, 0, 2, 3, 4, 5, 6] ∧
    ((records2 c1data).filter imuMask).map Rec2.t = [1, 1, 1, 1, 1, 1, 1] ∧
    (((records2 c1data).filter imuMask).map imuTypeTag).Perm [0, 1, 2, 3, 4, 5, 6] ∧
    decode2Imu c1data = some none ∧
    decode2ImuCorrupted c1data = some true := by
  have hh : readAerdatHeader c1data = Except.ok ([], c1data) :=
    readAerdatHeader_cons_ne 144
      [0, 12, 0, 0, 0, 0, 1, 128, 0, 12, 0, 0, 0, 0, 1, 160, 0, 12, 0, 0, 0, 0, 1,
       176, 0, 12, 0, 0, 0, 0, 1, 192, 0, 12, 0, 0, 0, 0, 1, 208, 0, 12, 0, 0, 0, 0, 1,
       224, 0, 12, 0, 0, 0, 0, 1] (by decide)
  have hrec : records2 c1data = sortRecords (parseRecords8 c1data) := by
    simp only [records2, hh]
  have h1 : decode2Imu c1data = some none := by
    simp only [decode2Imu, readAerdat2, hh]
    decide
  have h2 : decode2ImuCorrupted c1data = some true := by
    simp only [decode2ImuCorrupted, readAerdat2, hh]
    decide
  refine ⟨?_, ?_, ?_, h1, h2⟩
  · rw [hrec]; decide
  · rw [hrec]; decide
  · rw [hrec]; decide

end Undrdg
